import Mathlib

/- Shallow embedding of core routines of the gore Go-binary analysis library
   (build-ID parsing, PCLNTAB discovery, Go version comparison and discovery,
   moduledata extraction, byte-range access by virtual address, PE open), with
   theorems checking the natural-language specification against the code.

   Go machine integers are modelled as Nat with explicit reduction mod 2^32 or
   2^64 where the Go code can overflow.  Fallible Go code returns GoResult,
   which distinguishes an ordinary returned error from a runtime panic. -/

namespace Gore

/-- Outcome of a Go call: a value, a returned error value, or a runtime panic
(slice bounds violation, explicit panic call, ...). -/
inductive GoResult (α : Type) where
  | ok : α → GoResult α
  | err : String → GoResult α
  | panicked : String → GoResult α
  deriving DecidableEq, Repr

/-- Byte order used by encoding/binary reads and writes. -/
inductive ByteOrder where
  | le
  | be
  deriving DecidableEq, Repr

/-- Encode the low 32 bits of a value as 4 bytes in this byte order
(binary.ByteOrder.PutUint32). -/
def ByteOrder.putUint32Bytes (o : ByteOrder) (v : Nat) : List Nat :=
  match o with
  | .le => [v % 256, v / 256 % 256, v / 65536 % 256, v / 16777216 % 256]
  | .be => [v / 16777216 % 256, v / 65536 % 256, v / 256 % 256, v % 256]

/-- Decode 4 leading bytes in this byte order (binary.ByteOrder.Uint32).
Callers of the embedding check the length first, as binary.Read does. -/
def ByteOrder.readUint32 (o : ByteOrder) (l : List Nat) : Nat :=
  match l with
  | b0 :: b1 :: b2 :: b3 :: _ =>
    match o with
    | .le => b0 + 256 * b1 + 65536 * b2 + 16777216 * b3
    | .be => b3 + 256 * b2 + 65536 * b1 + 16777216 * b0
  | _ => 0

/-- Encode the low 64 bits of a value as 8 bytes in this byte order
(binary.ByteOrder.PutUint64). -/
def ByteOrder.putUint64Bytes (o : ByteOrder) (v : Nat) : List Nat :=
  match o with
  | .le => [v % 256, v / 256 % 256, v / 65536 % 256, v / 16777216 % 256,
            v / 2 ^ 32 % 256, v / 2 ^ 40 % 256, v / 2 ^ 48 % 256, v / 2 ^ 56 % 256]
  | .be => [v / 2 ^ 56 % 256, v / 2 ^ 48 % 256, v / 2 ^ 40 % 256, v / 2 ^ 32 % 256,
            v / 16777216 % 256, v / 65536 % 256, v / 256 % 256, v % 256]

/-- Decode 8 leading bytes in this byte order (binary.ByteOrder.Uint64). -/
def ByteOrder.readUint64 (o : ByteOrder) (l : List Nat) : Nat :=
  match l with
  | b0 :: b1 :: b2 :: b3 :: b4 :: b5 :: b6 :: b7 :: _ =>
    match o with
    | .le => b0 + 256 * b1 + 65536 * b2 + 16777216 * b3 + 2 ^ 32 * b4 +
             2 ^ 40 * b5 + 2 ^ 48 * b6 + 2 ^ 56 * b7
    | .be => b7 + 256 * b6 + 65536 * b5 + 16777216 * b4 + 2 ^ 32 * b3 +
             2 ^ 40 * b2 + 2 ^ 48 * b1 + 2 ^ 56 * b0
  | _ => 0

/-- Index of the first occurrence of pat as a contiguous sublist of l
(bytes.Index / strings.Index); none when absent.  Go returns 0 for an empty
pattern, matched by isPrefixOf of the empty list. -/
def indexOfSub {α : Type} [DecidableEq α] (l pat : List α) : Option Nat :=
  if pat.isPrefixOf l then some 0
  else
    match l with
    | [] => none
    | _ :: t => (indexOfSub t pat).map (· + 1)

/-- Index of the last occurrence of pat as a contiguous sublist of l
(bytes.LastIndex); none when absent.  Go returns len(l) for an empty pattern. -/
def lastIndexOfSub {α : Type} [DecidableEq α] (l pat : List α) : Option Nat :=
  match l with
  | [] => if pat.isPrefixOf ([] : List α) then some 0 else none
  | _ :: t =>
    match lastIndexOfSub t pat with
    | some i => some (i + 1)
    | none => if pat.isPrefixOf l then some 0 else none

/-- Go slice expression l[lo:hi]: defined when lo ≤ hi ≤ len(l), otherwise the
Go program panics, modelled by none. -/
def goSlice {α : Type} (l : List α) (lo hi : Nat) : Option (List α) :=
  if lo ≤ hi ∧ hi ≤ l.length then some ((l.drop lo).take (hi - lo)) else none

/- ---------------------------------------------------------------------------
   buildid.go
--------------------------------------------------------------------------- -/

/-- The ELF note name "Go\x00\x00" (buildid.go goNoteNameELF). -/
def goNoteNameELF : List Nat := [0x47, 0x6F, 0x00, 0x00]

/-- The raw build-ID start marker "\xff Go build ID: \"" (buildid.go
goNoteRawStart), 16 bytes. -/
def goNoteRawStart : List Nat :=
  [0xFF, 0x20, 0x47, 0x6F, 0x20, 0x62, 0x75, 0x69, 0x6C, 0x64, 0x20, 0x49,
   0x44, 0x3A, 0x20, 0x22]

/-- The raw build-ID end marker "\"\n \xff" (buildid.go goNoteRawEnd), 4 bytes. -/
def goNoteRawEnd : List Nat := [0x22, 0x0A, 0x20, 0xFF]

/-- buildid.go parseBuildIDFromElf: read nameLen, idLen and tag as three
32-bit values in the file byte order, require tag = 4 and the note name
"Go\x00\x00", and return the id bytes of the recorded length.  The three
binary.Read calls fail on a short buffer; the two Go slice expressions
data[12:12+nameLen] and data[16:16+idLen] panic when they reach past the end
of the buffer. -/
def parseBuildIDFromElf (data : List Nat) (order : ByteOrder) : GoResult (List Nat) :=
  if data.length < 4 then .err "error when reading the BuildID name length"
  else
    let nameLen := order.readUint32 data
    if data.length < 8 then .err "error when reading the BuildID ID length"
    else
      let idLen := order.readUint32 (data.drop 4)
      if data.length < 12 then .err "error when reading the BuildID tag"
      else
        let tag := order.readUint32 (data.drop 8)
        if tag ≠ 4 then .err "build ID does not match expected value"
        else
          match goSlice data 12 (12 + nameLen) with
          | none => .panicked "slice bounds out of range"
          | some noteName =>
            if noteName ≠ goNoteNameELF then .err "note name not as expected"
            else
              match goSlice data 16 (16 + idLen) with
              | none => .panicked "slice bounds out of range"
              | some id => .ok id

/-- buildid.go parseBuildIDFromRaw: find the first occurrence of the start
marker (absence is not an error), find the first occurrence of the end marker
searching again from position 0, and slice between them.  The slice expression
data[idx+len(start) : end] panics when the end index is below the start
index. -/
def parseBuildIDFromRaw (data : List Nat) : GoResult (List Nat) :=
  match indexOfSub data goNoteRawStart with
  | none => .ok []
  | some idx =>
    match indexOfSub data goNoteRawEnd with
    | none => .err "malformed Build ID"
    | some e =>
      match goSlice data (idx + goNoteRawStart.length) e with
      | none => .panicked "slice bounds out of range"
      | some id => .ok id

/-- The byte buffer of the ELF build-id note round-trip of claim C7:
little-endian nameLen = 4, idLen = len(id), tag, then the 4 name bytes, then
the id bytes. -/
def elfNoteBuf (tag : Nat) (name id : List Nat) : List Nat :=
  ByteOrder.le.putUint32Bytes 4 ++ ByteOrder.le.putUint32Bytes id.length ++
    ByteOrder.le.putUint32Bytes tag ++ name ++ id

/-- Reading back a 32-bit little-endian encoding recovers the value mod 2^32. -/
lemma readUint32_le_putUint32Bytes (v : Nat) (rest : List Nat) :
    ByteOrder.le.readUint32 (ByteOrder.le.putUint32Bytes v ++ rest) = v % 2 ^ 32 := by
  simp only [ByteOrder.putUint32Bytes, ByteOrder.readUint32, List.cons_append,
    List.nil_append]
  omega

/-- Dropping the 4 bytes of a 32-bit encoding. -/
lemma drop4_putUint32Bytes (o : ByteOrder) (v : Nat) (rest : List Nat) :
    (o.putUint32Bytes v ++ rest).drop 4 = rest := by
  cases o <;> simp [ByteOrder.putUint32Bytes]

/-- A 32-bit encoding is 4 bytes long. -/
lemma length_putUint32Bytes (o : ByteOrder) (v : Nat) :
    (o.putUint32Bytes v).length = 4 := by
  cases o <;> simp [ByteOrder.putUint32Bytes]

lemma elfNoteBuf_length (tag : Nat) (name id : List Nat) (hname : name.length = 4) :
    (elfNoteBuf tag name id).length = 16 + id.length := by
  simp [elfNoteBuf, length_putUint32Bytes, hname]
  omega

lemma elfNoteBuf_drop (tag : Nat) (name id : List Nat) :
    (elfNoteBuf tag name id).drop 12 = name ++ id := by
  simp [elfNoteBuf, ByteOrder.putUint32Bytes]

/-- Evaluation of parseBuildIDFromElf on the concatenated note buffer of C7. -/
lemma parseBuildIDFromElf_elfNoteBuf (tag : Nat) (name id : List Nat)
    (htag : tag < 2 ^ 32) (hname : name.length = 4) (hid : id.length < 2 ^ 32) :
    parseBuildIDFromElf (elfNoteBuf tag name id) .le =
      (if tag = 4 then
        (if name = goNoteNameELF then .ok id else .err "note name not as expected")
       else .err "build ID does not match expected value") := by
  have hlen : (elfNoteBuf tag name id).length = 16 + id.length :=
    elfNoteBuf_length tag name id hname
  have h0 : ByteOrder.le.readUint32 (elfNoteBuf tag name id) = 4 := by
    simp only [elfNoteBuf, List.append_assoc]
    rw [readUint32_le_putUint32Bytes]
    omega
  have h4 : ByteOrder.le.readUint32 ((elfNoteBuf tag name id).drop 4) = id.length := by
    simp only [elfNoteBuf, List.append_assoc]
    rw [drop4_putUint32Bytes, readUint32_le_putUint32Bytes]
    omega
  have h8 : ByteOrder.le.readUint32 ((elfNoteBuf tag name id).drop 8) = tag := by
    simp only [elfNoteBuf, List.append_assoc]
    rw [show (8 : Nat) = 4 + 4 from rfl, ← List.drop_drop, drop4_putUint32Bytes,
      drop4_putUint32Bytes, readUint32_le_putUint32Bytes]
    omega
  have hs12 : goSlice (elfNoteBuf tag name id) 12 16 = some name := by
    unfold goSlice
    rw [if_pos (by omega), elfNoteBuf_drop]
    rw [show (16 : Nat) - 12 = 4 from rfl, ← hname, List.take_left]
  have hs16 : goSlice (elfNoteBuf tag name id) 16 (16 + id.length) = some id := by
    unfold goSlice
    rw [if_pos (by omega)]
    have hd : (elfNoteBuf tag name id).drop 16 = id := by
      rw [show (16 : Nat) = 12 + 4 from rfl, ← List.drop_drop, elfNoteBuf_drop,
        ← hname, List.drop_left]
    rw [hd]
    simp
  have c1 : ¬ ((elfNoteBuf tag name id).length < 4) := by omega
  have c2 : ¬ ((elfNoteBuf tag name id).length < 8) := by omega
  have c3 : ¬ ((elfNoteBuf tag name id).length < 12) := by omega
  simp only [parseBuildIDFromElf, c1, c2, c3, if_false, h0, h4, h8,
    Nat.reduceAdd, hs12, hs16]
  by_cases ht : tag = 4 <;> by_cases hn : name = goNoteNameELF <;>
    simp [ht, hn]

/-- C7: parsing the concatenated ELF build-id note (little-endian nameLen = 4,
idLen = N, tag, 4 name bytes, then the N id bytes) returns exactly the id and
no error when tag = 4 and the name is "Go\x00\x00"; and it fails with an error
whenever tag differs from 4 or the 4-byte name differs from "Go\x00\x00". -/
theorem buildID_elf_note_roundtrip (tag : Nat) (name id : List Nat)
    (htag : tag < 2 ^ 32) (hname : name.length = 4) (hid : id.length < 2 ^ 32) :
    (tag = 4 → name = goNoteNameELF →
      parseBuildIDFromElf (elfNoteBuf tag name id) .le = .ok id) ∧
    (tag ≠ 4 → ∃ m, parseBuildIDFromElf (elfNoteBuf tag name id) .le = .err m) ∧
    (name ≠ goNoteNameELF → ∃ m, parseBuildIDFromElf (elfNoteBuf tag name id) .le = .err m) := by
  rw [parseBuildIDFromElf_elfNoteBuf tag name id htag hname hid]
  refine ⟨fun ht hn => by rw [if_pos ht, if_pos hn], fun ht => ⟨_, by rw [if_neg ht]⟩,
    fun hn => ?_⟩
  by_cases ht : tag = 4
  · exact ⟨_, by rw [if_pos ht, if_neg hn]⟩
  · exact ⟨_, by rw [if_neg ht]⟩

/-- Witness for C7 at tag 4, the Go note name, and a concrete 3-byte id. -/
theorem buildID_elf_note_roundtrip_witness :
    parseBuildIDFromElf (elfNoteBuf 4 goNoteNameELF [1, 2, 3]) .le = .ok [1, 2, 3] :=
  (buildID_elf_note_roundtrip 4 goNoteNameELF [1, 2, 3] (by decide) (by decide)
    (by decide)).1 rfl rfl

/-- C9: parseBuildIDFromRaw searches for the end marker from position 0 of the
whole buffer; whenever the first end-marker occurrence ends before the end of
the first start-marker occurrence, the slice end index is below the start
index and the function panics instead of returning a value or an error. -/
theorem buildID_raw_overlap_panics (data : List Nat) (idx e : Nat)
    (hs : indexOfSub data goNoteRawStart = some idx)
    (he : indexOfSub data goNoteRawEnd = some e)
    (hlt : e + goNoteRawEnd.length < idx + goNoteRawStart.length) :
    e < idx + goNoteRawStart.length ∧
    parseBuildIDFromRaw data = .panicked "slice bounds out of range" := by
  have hns : goNoteRawStart.length = 16 := by decide
  have hne : goNoteRawEnd.length = 4 := by decide
  have h1 : e < idx + goNoteRawStart.length := by omega
  refine ⟨h1, ?_⟩
  have hsl : goSlice data (idx + goNoteRawStart.length) e = none := by
    unfold goSlice
    rw [if_neg (by omega)]
  simp only [parseBuildIDFromRaw, hs, he, hsl]

/-- Witness for C9: the 4 end-marker bytes immediately followed by the 16
start-marker bytes make parseBuildIDFromRaw panic. -/
theorem buildID_raw_overlap_panics_witness :
    parseBuildIDFromRaw (goNoteRawEnd ++ goNoteRawStart) =
      .panicked "slice bounds out of range" :=
  (buildID_raw_overlap_panics (goNoteRawEnd ++ goNoteRawStart) 4 0 (by decide)
    (by decide) (by decide)).2

/- ---------------------------------------------------------------------------
   Shared error values (the errors file of the package)
--------------------------------------------------------------------------- -/

def errNotEnoughBytesRead : String := "not enough bytes read"

def errUnsupportedFile : String := "unsupported file"

def errSectionDoesNotExist : String := "section does not exist"

def errNoGoVersionFound : String := "no goversion found"

def errNoPCLNTab : String := "no pclntab located"

def errInvalidGoVersion : String := "invalid go version"

/- ---------------------------------------------------------------------------
   pclntab.go: searchSectionForTab (current two-argument form, with the four
   table magics and the 6-byte search pattern)
--------------------------------------------------------------------------- -/

def gopclntab12magic : Nat := 0xfffffffb

def gopclntab116magic : Nat := 0xfffffffa

def gopclntab118magic : Nat := 0xfffffff0

def gopclntab120magic : Nat := 0xfffffff1

/-- The 6-byte search pattern built by searchSectionForTab: the 4 magic bytes
written in the caller byte order into a zeroed 6-byte buffer, so the two
padding bytes stay zero. -/
def tabMagicBytes (order : ByteOrder) (magic : Nat) : List Nat :=
  order.putUint32Bytes magic ++ [0, 0]

/-- The pclntab header check of searchSectionForTab, phrased positively: the
candidate suffix is at least 16 bytes, bytes +4 and +5 are zero, byte +6 (pc
quantum) is 1, 2 or 4, and byte +7 (pointer size) is 4 or 8. -/
def pclntabHeaderOk (buf : List Nat) : Bool :=
  decide (16 ≤ buf.length) && decide (buf.getD 4 0 = 0) && decide (buf.getD 5 0 = 0) &&
    (decide (buf.getD 6 0 = 1) || decide (buf.getD 6 0 = 2) || decide (buf.getD 6 0 = 4)) &&
    (decide (buf.getD 7 0 = 4) || decide (buf.getD 7 0 = 8))

/-- The inner back-off loop of searchSectionForTab for one magic: starting
from the last occurrence, a candidate at offset 0 is skipped (the code breaks
out of the loop without checking its header), a candidate with a bad header
retreats to the previous occurrence within secData[:off-1], and a candidate
with a good header is returned as the suffix from its offset.  The fuel
argument only bounds the recursion; each retreat strictly decreases the
offset, so fuel off + 1 reproduces the Go loop exactly. -/
def tabBackoff (secData bMagic : List Nat) : Nat → Nat → Option (List Nat)
  | 0, _ => none
  | n + 1, off =>
    if off = 0 then none
    else if pclntabHeaderOk (secData.drop off) then some (secData.drop off)
    else if off - 1 ≤ 0 then none
    else
      match lastIndexOfSub (secData.take (off - 1)) bMagic with
      | none => none
      | some off2 => tabBackoff secData bMagic n off2

/-- searchSectionForTab restricted to a single magic value. -/
def searchTabWithMagic (secData : List Nat) (order : ByteOrder) (magic : Nat) :
    Option (List Nat) :=
  match lastIndexOfSub secData (tabMagicBytes order magic) with
  | none => none
  | some off => tabBackoff secData (tabMagicBytes order magic) (off + 1) off

/-- pclntab.go searchSectionForTab: try the magics of Go 1.20, 1.18, 1.16 and
1.2 in that order; for each, search backwards from the last occurrence of the
6-byte pattern; return the suffix of the first candidate that passes the
header check at a nonzero offset; otherwise ErrNoPCLNTab. -/
def searchSectionForTab (secData : List Nat) (order : ByteOrder) :
    GoResult (List Nat) :=
  match searchTabWithMagic secData order gopclntab120magic with
  | some tab => .ok tab
  | none =>
    match searchTabWithMagic secData order gopclntab118magic with
    | some tab => .ok tab
    | none =>
      match searchTabWithMagic secData order gopclntab116magic with
      | some tab => .ok tab
      | none =>
        match searchTabWithMagic secData order gopclntab12magic with
        | some tab => .ok tab
        | none => .err errNoPCLNTab

/-- The 16-byte Go 1.16 pclntab header of claim C3: magic fa ff ff ff,
reserved bytes zero, pc quantum 2, pointer size 8, padded with zeros. -/
def pcHdr16 : List Nat := [0xfa, 0xff, 0xff, 0xff, 0, 0, 2, 8, 0, 0, 0, 0, 0, 0, 0, 0]

/-- The same header with byte 7 (pointer size) changed to 3. -/
def pcHdrBadPtr : List Nat := [0xfa, 0xff, 0xff, 0xff, 0, 0, 2, 3, 0, 0, 0, 0, 0, 0, 0, 0]

/-- The same header with byte 4 (reserved) changed to 1. -/
def pcHdrBadPad : List Nat := [0xfa, 0xff, 0xff, 0xff, 1, 0, 2, 8, 0, 0, 0, 0, 0, 0, 0, 0]

/-- Any candidate returned by the back-off loop passes the header check. -/
lemma tabBackoff_headerOk (secData bMagic : List Nat) (fuel off : Nat)
    (buf : List Nat) (h : tabBackoff secData bMagic fuel off = some buf) :
    pclntabHeaderOk buf = true := by
  induction fuel generalizing off with
  | zero => simp [tabBackoff] at h
  | succ n ih =>
    unfold tabBackoff at h
    by_cases h0 : off = 0
    · simp [h0] at h
    · rw [if_neg h0] at h
      by_cases hh : pclntabHeaderOk (secData.drop off) = true
      · rw [if_pos hh] at h
        cases h
        exact hh
      · rw [if_neg hh] at h
        by_cases h1 : off - 1 ≤ 0
        · simp [h1] at h
        · rw [if_neg h1] at h
          cases hli : lastIndexOfSub (secData.take (off - 1)) bMagic with
          | none => rw [hli] at h; cases h
          | some off2 => rw [hli] at h; exact ih off2 h

/-- Any table returned for one magic passes the header check. -/
lemma searchTabWithMagic_headerOk (secData : List Nat) (order : ByteOrder)
    (magic : Nat) (buf : List Nat)
    (h : searchTabWithMagic secData order magic = some buf) :
    pclntabHeaderOk buf = true := by
  unfold searchTabWithMagic at h
  cases hli : lastIndexOfSub secData (tabMagicBytes order magic) with
  | none => rw [hli] at h; cases h
  | some off => rw [hli] at h; exact tabBackoff_headerOk _ _ _ _ _ h

/-- Counterexample to C3 as stated: the 16-byte buffer that begins with the
valid Go 1.16 pclntab header fa ff ff ff 00 00 02 08 is rejected with
ErrNoPCLNTab, because its only magic occurrence is at offset 0 and
searchSectionForTab skips candidates at offset 0. -/
theorem searchSectionForTab_rejects_offset_zero :
    searchSectionForTab pcHdr16 .le = .err errNoPCLNTab := by decide

/-- C3 as amended: every buffer searchSectionForTab accepts passes the header
check (length at least 16, bytes +4 and +5 zero, byte +6 in 1, 2, 4, byte +7
in 4 or 8), but acceptance additionally requires the candidate to start at a
nonzero offset of the searched section.  Hence the valid 16-byte header is
rejected when it sits at offset 0 and accepted once a byte precedes it, and
the two corrupted headers (byte 7 changed to 3, byte 4 changed to 1) are
rejected with ErrNoPCLNTab. -/
theorem searchSectionForTab_spec :
    (∀ secData order buf, searchSectionForTab secData order = .ok buf →
      pclntabHeaderOk buf = true) ∧
    searchSectionForTab pcHdr16 .le = .err errNoPCLNTab ∧
    searchSectionForTab (0 :: pcHdr16) .le = .ok pcHdr16 ∧
    searchSectionForTab pcHdrBadPtr .le = .err errNoPCLNTab ∧
    searchSectionForTab pcHdrBadPad .le = .err errNoPCLNTab := by
  refine ⟨?_, by decide, by decide, by decide, by decide⟩
  intro secData order buf h
  unfold searchSectionForTab at h
  cases h120 : searchTabWithMagic secData order gopclntab120magic with
  | some tab => rw [h120] at h; cases h; exact searchTabWithMagic_headerOk _ _ _ _ h120
  | none =>
    rw [h120] at h
    cases h118 : searchTabWithMagic secData order gopclntab118magic with
    | some tab => rw [h118] at h; cases h; exact searchTabWithMagic_headerOk _ _ _ _ h118
    | none =>
      rw [h118] at h
      cases h116 : searchTabWithMagic secData order gopclntab116magic with
      | some tab => rw [h116] at h; cases h; exact searchTabWithMagic_headerOk _ _ _ _ h116
      | none =>
        rw [h116] at h
        cases h12 : searchTabWithMagic secData order gopclntab12magic with
        | some tab => rw [h12] at h; cases h; exact searchTabWithMagic_headerOk _ _ _ _ h12
        | none => rw [h12] at h; cases h

/-- Witness for the universally quantified part of the amended C3, at the
17-byte buffer with one zero byte before the valid header. -/
theorem searchSectionForTab_spec_witness : pclntabHeaderOk pcHdr16 = true :=
  searchSectionForTab_spec.1 (0 :: pcHdr16) .le pcHdr16 (by decide)

/- ---------------------------------------------------------------------------
   elf.go getSectionDataFromAddress and file.go GoFile.Bytes
--------------------------------------------------------------------------- -/

/-- A container section: virtual address, virtual size, file offset and the
file-backed bytes returned by section.Data().  addr and size are uint64
values (below 2^64). -/
structure Section where
  addr : Nat
  size : Nat
  offset : Nat
  data : List Nat
  deriving DecidableEq, Repr

/-- elf.go getSectionDataFromAddress: walk the section table, skip memory-only
sections (file offset 0), and return the base address and file bytes of the
first section whose virtual range [addr, addr+size) contains the address; the
upper bound is computed in uint64 arithmetic. -/
def getSectionDataFromAddress (secs : List Section) (address : Nat) :
    GoResult (Nat × List Nat) :=
  match secs with
  | [] => .err errSectionDoesNotExist
  | s :: rest =>
    if s.offset = 0 then getSectionDataFromAddress rest address
    else if s.addr ≤ address ∧ address < (s.addr + s.size) % 2 ^ 64 then
      .ok (s.addr, s.data)
    else getSectionDataFromAddress rest address

/-- file.go GoFile.Bytes: look up the enclosing section, compare
address+length-base (uint64 arithmetic, so it can wrap) against the in-file
length, and return the slice section[address-base : address+length-base].
The slice expression panics when the wrapped end offset is below the start
offset. -/
def goFileBytes (secs : List Section) (address length : Nat) : GoResult (List Nat) :=
  match getSectionDataFromAddress secs address with
  | .err e => .err e
  | .panicked m => .panicked m
  | .ok (base, data) =>
    let hi := ((address + length) % 2 ^ 64 + 2 ^ 64 - base) % 2 ^ 64
    let lo := (address + 2 ^ 64 - base) % 2 ^ 64
    if data.length < hi then .err "length out of bounds"
    else
      match goSlice data lo hi with
      | none => .panicked "slice bounds out of range"
      | some bs => .ok bs

/-- A successful section lookup comes from a file-backed section of the list,
and its base is at most the looked-up address and below 2^64 when all section
addresses are. -/
lemma getSectionDataFromAddress_ok (secs : List Section) (address base : Nat)
    (data : List Nat)
    (h : getSectionDataFromAddress secs address = .ok (base, data)) :
    base ≤ address ∧ ∃ s ∈ secs, s.addr = base ∧ s.data = data := by
  induction secs with
  | nil => simp [getSectionDataFromAddress] at h
  | cons s rest ih =>
    unfold getSectionDataFromAddress at h
    by_cases h0 : s.offset = 0
    · rw [if_pos h0] at h
      obtain ⟨hb, t, ht, he⟩ := ih h
      exact ⟨hb, t, List.mem_cons_of_mem s ht, he⟩
    · rw [if_neg h0] at h
      by_cases hin : s.addr ≤ address ∧ address < (s.addr + s.size) % 2 ^ 64
      · rw [if_pos hin] at h
        cases h
        exact ⟨hin.1, s, List.mem_cons_self s rest, rfl, rfl⟩
      · rw [if_neg hin] at h
        obtain ⟨hb, t, ht, he⟩ := ih h
        exact ⟨hb, t, List.mem_cons_of_mem s ht, he⟩

/-- The section lookup never panics. -/
lemma getSectionDataFromAddress_no_panic (secs : List Section) (address : Nat)
    (m : String) : getSectionDataFromAddress secs address ≠ .panicked m := by
  induction secs with
  | nil => simp [getSectionDataFromAddress]
  | cons s rest ih =>
    unfold getSectionDataFromAddress
    by_cases h0 : s.offset = 0
    · rw [if_pos h0]; exact ih
    · rw [if_neg h0]
      by_cases hin : s.addr ≤ address ∧ address < (s.addr + s.size) % 2 ^ 64
      · rw [if_pos hin]; simp
      · rw [if_neg hin]; exact ih

/-- The only error the section lookup returns is ErrSectionDoesNotExist. -/
lemma getSectionDataFromAddress_err (secs : List Section) (address : Nat)
    (e : String) (h : getSectionDataFromAddress secs address = .err e) :
    e = errSectionDoesNotExist := by
  induction secs with
  | nil => simp [getSectionDataFromAddress] at h; exact h.symm
  | cons s rest ih =>
    unfold getSectionDataFromAddress at h
    by_cases h0 : s.offset = 0
    · rw [if_pos h0] at h; exact ih h
    · rw [if_neg h0] at h
      by_cases hin : s.addr ≤ address ∧ address < (s.addr + s.size) % 2 ^ 64
      · rw [if_pos hin] at h; cases h
      · rw [if_neg hin] at h; exact ih h

/-- One crafted section: base 0x1000, virtual size 0x1000, file offset 1,
with 16 file-backed bytes. -/
def c8sections : List Section := [⟨0x1000, 0x1000, 1, List.replicate 16 0⟩]

/-- Counterexample to C8 as stated: with a section based at 0x1000 holding 16
file bytes, Bytes(0x1008, 2^64 - 4) wraps the end offset to 4, passes the
bounds check, and panics on the slice 16-byte-buffer[8:4] instead of
returning an error. -/
theorem goFileBytes_overflow_panics :
    goFileBytes c8sections 0x1008 (2 ^ 64 - 4) =
      .panicked "slice bounds out of range" := by decide

/-- C8 as amended: when va+len does not overflow uint64 and section addresses
are uint64 values, Bytes never panics, returns exactly len bytes on success,
and returns an error exactly when the lookup finds no file-backed section for
va or the range va..va+len reaches past the section's in-file bytes.  When
va+len overflows, the bounds check can wrap and the slice expression panics
(see the counterexample). -/
theorem goFileBytes_spec (secs : List Section) (va len : Nat)
    (hova : va + len < 2 ^ 64) (hwf : ∀ s ∈ secs, s.addr < 2 ^ 64) :
    (∀ m, goFileBytes secs va len ≠ .panicked m) ∧
    (∀ bs, goFileBytes secs va len = .ok bs → bs.length = len) ∧
    ((∃ e, goFileBytes secs va len = .err e) ↔
      (getSectionDataFromAddress secs va = .err errSectionDoesNotExist ∨
        ∃ base data, getSectionDataFromAddress secs va = .ok (base, data) ∧
          data.length < va + len - base)) := by
  cases hl : getSectionDataFromAddress secs va with
  | err e =>
    have he := getSectionDataFromAddress_err secs va e hl
    subst he
    refine ⟨?_, ?_, ?_⟩
    · intro m; simp [goFileBytes, hl]
    · intro bs h; simp [goFileBytes, hl] at h
    · constructor
      · intro _; exact Or.inl rfl
      · intro _; exact ⟨errSectionDoesNotExist, by simp [goFileBytes, hl]⟩
  | panicked m => exact absurd hl (getSectionDataFromAddress_no_panic secs va m)
  | ok p =>
    obtain ⟨base, data⟩ := p
    obtain ⟨hble, s, hs, hsaddr, hsdata⟩ := getSectionDataFromAddress_ok secs va base data hl
    have hbase : base < 2 ^ 64 := hsaddr ▸ hwf s hs
    have hhi : ((va + len) % 2 ^ 64 + 2 ^ 64 - base) % 2 ^ 64 = va + len - base := by
      rw [Nat.mod_eq_of_lt hova]
      have h1 : va + len + 2 ^ 64 - base = 2 ^ 64 + (va + len - base) := by omega
      rw [h1, Nat.add_mod_left, Nat.mod_eq_of_lt (by omega)]
    have hlo : (va + 2 ^ 64 - base) % 2 ^ 64 = va - base := by
      have h1 : va + 2 ^ 64 - base = 2 ^ 64 + (va - base) := by omega
      rw [h1, Nat.add_mod_left, Nat.mod_eq_of_lt (by omega)]
    by_cases hbnd : data.length < va + len - base
    · refine ⟨?_, ?_, ?_⟩
      · intro m
        simp only [goFileBytes, hl, hhi, hlo]
        rw [if_pos hbnd]
        simp
      · intro bs h
        simp only [goFileBytes, hl, hhi, hlo] at h
        rw [if_pos hbnd] at h
        cases h
      · constructor
        · intro _
          exact Or.inr ⟨base, data, rfl, hbnd⟩
        · intro _
          refine ⟨"length out of bounds", ?_⟩
          simp only [goFileBytes, hl, hhi, hlo]
          rw [if_pos hbnd]
    · have hslice : goSlice data (va - base) (va + len - base) =
          some ((data.drop (va - base)).take len) := by
        unfold goSlice
        rw [if_pos (by omega)]
        have : va + len - base - (va - base) = len := by omega
        rw [this]
      have hlen : ((data.drop (va - base)).take len).length = len := by
        rw [List.length_take, List.length_drop]
        omega
      refine ⟨?_, ?_, ?_⟩
      · intro m
        simp only [goFileBytes, hl, hhi, hlo]
        rw [if_neg hbnd, hslice]
        simp
      · intro bs h
        simp only [goFileBytes, hl, hhi, hlo] at h
        rw [if_neg hbnd, hslice] at h
        cases h
        exact hlen
      · constructor
        · intro ⟨e, he⟩
          simp only [goFileBytes, hl, hhi, hlo] at he
          rw [if_neg hbnd, hslice] at he
          cases he
        · intro h
          rcases h with h | ⟨base2, data2, h2, hb2⟩
          · simp at h
          · cases h2
            omega

/-- Witness for the amended C8 at an 8-byte in-bounds read of the crafted
section. -/
theorem goFileBytes_spec_witness : (List.replicate 8 (0 : Nat)).length = 8 :=
  (goFileBytes_spec c8sections 0x1008 8 (by decide) (by decide)).2.1
    (List.replicate 8 0) (by decide)

/- ---------------------------------------------------------------------------
   goversion.go ResolveGoVersion and file.go GoFile.SetGoVersion
--------------------------------------------------------------------------- -/

/-- goversion.go GoVersion: release name, commit digest and timestamp. -/
structure GoVersion where
  name : String
  sha : String
  timestamp : String
  deriving DecidableEq, Repr

/-- goversion.go ResolveGoVersion over an explicit known-versions table.  The
table itself is generated code that is not under src, so it is a parameter
here; the source looks the tag up in the package-level goversions map and
returns nil when absent. -/
def resolveGoVersion (goversions : List (String × GoVersion)) (tag : String) :
    Option GoVersion :=
  (goversions.find? (fun p => p.1 = tag)).map Prod.snd

/-- The FileInfo fields of file.go relevant to SetGoVersion: everything except
the compiler-version slot is immutable after discovery. -/
structure FileInfoM where
  arch : String
  os : String
  wordSize : Nat
  goversion : Option GoVersion
  deriving DecidableEq, Repr

/-- The GoFile fields SetGoVersion can reach. -/
structure GoFileM where
  fileInfo : FileInfoM
  buildID : String
  deriving DecidableEq, Repr

/-- file.go GoFile.SetGoVersion: resolve the tag; on failure return
ErrInvalidGoVersion without touching the file object, otherwise overwrite the
stored compiler version and return nil. -/
def setGoVersion (goversions : List (String × GoVersion)) (f : GoFileM)
    (version : String) : GoFileM × Option String :=
  match resolveGoVersion goversions version with
  | none => (f, some errInvalidGoVersion)
  | some gv => ({ f with fileInfo := { f.fileInfo with goversion := some gv } }, none)

/-- C10: SetGoVersion is atomic on error.  An unknown tag returns
ErrInvalidGoVersion and leaves the file object (its stored compiler version
and every other field) unchanged; a known tag overwrites only the stored
compiler version with the resolved descriptor and returns nil. -/
theorem setGoVersion_spec (goversions : List (String × GoVersion)) (f : GoFileM)
    (version : String) :
    (resolveGoVersion goversions version = none →
      setGoVersion goversions f version = (f, some errInvalidGoVersion)) ∧
    (∀ gv, resolveGoVersion goversions version = some gv →
      (setGoVersion goversions f version).2 = none ∧
      (setGoVersion goversions f version).1.fileInfo.goversion = some gv ∧
      (setGoVersion goversions f version).1.buildID = f.buildID ∧
      (setGoVersion goversions f version).1.fileInfo.arch = f.fileInfo.arch ∧
      (setGoVersion goversions f version).1.fileInfo.os = f.fileInfo.os ∧
      (setGoVersion goversions f version).1.fileInfo.wordSize = f.fileInfo.wordSize) := by
  constructor
  · intro h
    simp [setGoVersion, h]
  · intro gv h
    simp [setGoVersion, h]

/-- A one-entry table for the C10 witness. -/
def c10table : List (String × GoVersion) :=
  [("go1.7.1", ⟨"go1.7.1", "sha", "date"⟩)]

/-- A concrete file state for the C10 witness. -/
def c10file : GoFileM :=
  ⟨⟨"amd64", "linux", 8, none⟩, "buildid"⟩

/-- Witness for C10: setting go1.7.1 against the one-entry table stores the
resolved descriptor. -/
theorem setGoVersion_spec_witness :
    (setGoVersion c10table c10file "go1.7.1").1.fileInfo.goversion =
      some ⟨"go1.7.1", "sha", "date"⟩ :=
  ((setGoVersion_spec c10table c10file "go1.7.1").2 ⟨"go1.7.1", "sha", "date"⟩
    (by decide)).2.1

/- ---------------------------------------------------------------------------
   pe.go openPE and its panic boundary
--------------------------------------------------------------------------- -/

/-- The optional-header variants pe.NewFile can hand to openPE. -/
inductive PEHeaderKind where
  | opt32 (imageBase : Nat)
  | opt64 (imageBase : Nat)
  | unknownHdr
  deriving DecidableEq, Repr

/-- The fields of peFile that openPE fills in. -/
structure PEFileModel where
  imageBase : Nat
  deriving DecidableEq, Repr

/-- The body of pe.go openPE after the go statement: open the file, parse it
with pe.NewFile (abstracted as a parameter because debug/pe is outside this
repository; it can return a file, return an error, or panic on a malformed
input), and read the image base from the 32- or 64-bit optional header. -/
def openPEBody (osOpen : Except String Unit) (peNewFile : GoResult PEHeaderKind) :
    GoResult PEFileModel :=
  match osOpen with
  | .error e => .err ("error when opening the file: " ++ e)
  | .ok _ =>
    match peNewFile with
    | .panicked m => .panicked m
    | .err e => .err ("error when parsing the PE file: " ++ e)
    | .ok hdr =>
      match hdr with
      | .opt32 b => .ok ⟨b⟩
      | .opt64 b => .ok ⟨b⟩
      | .unknownHdr => .err "unknown optional header type"

/-- The panic boundary openPE actually installs.  The source spawns a
goroutine with the go statement: go func() becomes a new goroutine whose
recover() runs immediately in that goroutine; by the Go specification,
recover only stops a panic when called by a function deferred in the
panicking goroutine, so a recover in a different, non-panicking goroutine
returns nil and the panic of the openPE goroutine keeps unwinding.  The
boundary therefore changes nothing about the call outcome. -/
def goStmtRecover {α : Type} (body : GoResult α) : GoResult α := body

/-- pe.go openPE as written: the go-statement recover boundary around the
body. -/
def openPE (osOpen : Except String Unit) (peNewFile : GoResult PEHeaderKind) :
    GoResult PEFileModel :=
  goStmtRecover (openPEBody osOpen peNewFile)

/-- Modelled from the spec: the recoverable-panic boundary the spec (and the
comment in openPE itself) describes, a deferred recover in the same
goroutine, which converts a panic anywhere in the body into a returned
error. -/
def openPEWithDeferredRecover (osOpen : Except String Unit)
    (peNewFile : GoResult PEHeaderKind) : GoResult PEFileModel :=
  match openPEBody osOpen peNewFile with
  | .panicked m => .err ("error when processing PE file, probably corrupt: " ++ m)
  | r => r

/-- C1: the code contradicts the claim (and its own comment).  When pe.NewFile
panics on a malformed PE file, openPE as written lets the panic escape and
abort the process, because its recover runs in a freshly spawned goroutine;
the deferred-recover boundary the spec describes would have returned the
structural error instead. -/
theorem openPE_panic_escapes :
    openPE (.ok ()) (.panicked "corrupt header") = .panicked "corrupt header" ∧
    openPEWithDeferredRecover (.ok ()) (.panicked "corrupt header") =
      .err "error when processing PE file, probably corrupt: corrupt header" :=
  ⟨rfl, rfl⟩

/- ---------------------------------------------------------------------------
   moduledata extraction (the extractModuledata form with the goto-based
   search loop and inline validation)
--------------------------------------------------------------------------- -/

/-- The normalized moduledata record (address and length pairs plus the
go:func value). -/
structure Moduledata where
  TextAddr : Nat
  TextLen : Nat
  NoPtrDataAddr : Nat
  NoPtrDataLen : Nat
  DataAddr : Nat
  DataLen : Nat
  BssAddr : Nat
  BssLen : Nat
  NoPtrBssAddr : Nat
  NoPtrBssLen : Nat
  TypesAddr : Nat
  TypesLen : Nat
  TypelinkAddr : Nat
  TypelinkLen : Nat
  ITabLinkAddr : Nat
  ITabLinkLen : Nat
  FuncTabAddr : Nat
  FuncTabLen : Nat
  PCLNTabAddr : Nat
  PCLNTabLen : Nat
  GoFuncVal : Nat
  deriving DecidableEq, Repr

/-- A versioned moduledata layout (the modulable interface): its on-disk size
and the combination of binary.Read plus toModuledata, which turns exactly
size bytes into the normalized record.  The concrete layouts are generated
code outside src. -/
structure Modulable where
  size : Nat
  decode : List Nat → Moduledata

/-- moduledata.go buildPclnTabAddrBinary (the word-size form): the pclntab
address encoded in wordSize bytes of the file byte order. -/
def buildPclnTabAddrBinary (wordSize : Nat) (order : ByteOrder) (addr : Nat) :
    List Nat :=
  if wordSize = 4 then order.putUint32Bytes addr else order.putUint64Bytes addr

/-- The pieces of the file object extractModuledata consults.  Results of the
other subsystems (section data, symbol table, pclntab location, code section,
layout selection) are inputs here; each is an error or a value, as in the
source. -/
structure ModEnv where
  wordSize : Nat
  byteOrder : ByteOrder
  secData : Except String (Nat × List Nat)
  hasSymbolTable : Bool × Option String
  symFirstmoduledata : Except String Nat
  pclntabInit : Except String Nat
  codeSection : Except String (Nat × List Nat)
  vmdPick : Except String Modulable

/-- Outcome of loading and validating one moduledata candidate. -/
inductive LoadOutcome where
  | success (md : Moduledata)
  | failure (e : String)
  | invalid

/-- The record binary.Read plus toModuledata produce from the vmdSize bytes
at a candidate offset. -/
def mdDecodeAt (vmd : Modulable) (secData : List Nat) (off : Nat) : Moduledata :=
  vmd.decode ((secData.drop off).take vmd.size)

/-- The load-and-validate step of extractModuledata at a candidate offset
whose bounds were already checked: decode the record, compute text and
etext = text + textLen in uint64 arithmetic, fetch the code section (an error
there aborts), and declare the candidate invalid when text > etext or when
text lies outside [codeStart, codeStart + len(codeBytes)) (etext is not
compared against the code section). -/
def mdTryAt (env : ModEnv) (vmd : Modulable) (secData : List Nat) (off : Nat) :
    LoadOutcome :=
  match env.codeSection with
  | .error e => .failure e
  | .ok (textSectAddr, textSect) =>
    if ((mdDecodeAt vmd secData off).TextAddr + (mdDecodeAt vmd secData off).TextLen)
        % 2 ^ 64 < (mdDecodeAt vmd secData off).TextAddr then .invalid
    else if ¬ (textSectAddr ≤ (mdDecodeAt vmd secData off).TextAddr ∧
        (mdDecodeAt vmd secData off).TextAddr <
          (textSectAddr + textSect.length) % 2 ^ 64) then .invalid
    else .success (mdDecodeAt vmd secData off)

/-- The goto search/load loop of extractModuledata: find the next occurrence
of the magic (the empty magic, from the symbol entry path, matches at offset
0 like bytes.Index with a nil pattern), bounds-check the candidate, try to
load it, and on a failed validation drop one byte past the hit and search
again.  Fuel only bounds the recursion: the searched slice strictly shrinks
every iteration, so fuel len+1 reproduces the Go loop. -/
def mdSearchLoop (env : ModEnv) (vmd : Modulable) (magic : List Nat) :
    Nat → List Nat → GoResult Moduledata
  | 0, _ => .panicked "fuel exhausted"
  | n + 1, secData =>
    match indexOfSub secData magic with
    | none => .err "could not find moduledata"
    | some off =>
      if secData.length < off + vmd.size then .err "offset out of bounds"
      else
        match mdTryAt env vmd secData off with
        | .success md => .ok md
        | .failure e => .err e
        | .invalid =>
          if off + 1 ≤ secData.length then
            mdSearchLoop env vmd magic n (secData.drop (off + 1))
          else .panicked "slice bounds out of range"

/-- Reinterpret a uint64 value as a signed 64-bit integer (the int cast in
off := int(addr - secAddr)). -/
def int64OfUInt64 (u : Nat) : Int :=
  if u < 2 ^ 63 then (u : Int) else (u : Int) - 2 ^ 64

/-- The symbol fast path of extractModuledata: when hasSymbolTable reports
(true, nil) and the runtime.firstmoduledata symbol resolves, the load offset
is int(addr - secAddr) with uint64 subtraction. -/
def mdSymOff (hasSym : Bool × Option String) (sym : Except String Nat)
    (secAddr : Nat) : Option Int :=
  match hasSym with
  | (true, none) =>
    match sym with
    | .ok addr => some (int64OfUInt64 ((addr + 2 ^ 64 - secAddr) % 2 ^ 64))
    | .error _ => none
  | _ => none

/-- extractModuledata: pick the versioned layout for the known compiler
version; read the moduledata section; when the symbol table supplies
runtime.firstmoduledata, enter the load step directly at its offset
(computed by uint64 subtraction cast to a signed integer; the magic is then
still nil), otherwise locate the pclntab, build the word-sized encoding of
its address and scan the section for it. -/
def extractModuledata (env : ModEnv) : GoResult Moduledata :=
  match env.vmdPick with
  | .error e => .err e
  | .ok vmd =>
    match env.secData with
    | .error e => .err e
    | .ok (secAddr, secData) =>
      match mdSymOff env.hasSymbolTable env.symFirstmoduledata secAddr with
      | some offI =>
        if offI = -1 then .err "could not find moduledata"
        else if (secData.length : Int) < offI + vmd.size then .err "offset out of bounds"
        else if offI < 0 then .panicked "slice bounds out of range"
        else
          match mdTryAt env vmd secData offI.toNat with
          | .success md => .ok md
          | .failure e => .err e
          | .invalid =>
            if offI.toNat + 1 ≤ secData.length then
              mdSearchLoop env vmd [] (secData.length + 1) (secData.drop (offI.toNat + 1))
            else .panicked "slice bounds out of range"
      | none =>
        match env.pclntabInit with
        | .error e => .err e
        | .ok tabAddr =>
          mdSearchLoop env vmd (buildPclnTabAddrBinary env.wordSize env.byteOrder tabAddr)
            (secData.length + 1) secData

/-- A successful load step carries exactly the guarantees of the inline
validation. -/
lemma mdTryAt_success (env : ModEnv) (vmd : Modulable) (secData : List Nat)
    (off : Nat) (md : Moduledata)
    (h : mdTryAt env vmd secData off = .success md) :
    ∃ codeAddr codeBytes, env.codeSection = .ok (codeAddr, codeBytes) ∧
      md.TextAddr ≤ (md.TextAddr + md.TextLen) % 2 ^ 64 ∧
      codeAddr ≤ md.TextAddr ∧
      md.TextAddr < (codeAddr + codeBytes.length) % 2 ^ 64 := by
  unfold mdTryAt at h
  cases hcs : env.codeSection with
  | error e => simp only [hcs] at h; exact LoadOutcome.noConfusion h
  | ok p =>
    obtain ⟨codeAddr, codeBytes⟩ := p
    simp only [hcs] at h
    by_cases h1 : ((mdDecodeAt vmd secData off).TextAddr +
        (mdDecodeAt vmd secData off).TextLen) % 2 ^ 64 <
        (mdDecodeAt vmd secData off).TextAddr
    · rw [if_pos h1] at h; cases h
    · rw [if_neg h1] at h
      by_cases h2 : ¬ (codeAddr ≤ (mdDecodeAt vmd secData off).TextAddr ∧
          (mdDecodeAt vmd secData off).TextAddr <
            (codeAddr + codeBytes.length) % 2 ^ 64)
      · rw [if_pos h2] at h; cases h
      · rw [if_neg h2] at h
        cases h
        push_neg at h1 h2
        exact ⟨codeAddr, codeBytes, rfl, h1, h2.1, h2.2⟩

/-- Every record the search loop returns passed the load-step validation. -/
lemma mdSearchLoop_validates (env : ModEnv) (vmd : Modulable) (magic : List Nat)
    (fuel : Nat) (secData : List Nat) (md : Moduledata)
    (h : mdSearchLoop env vmd magic fuel secData = .ok md) :
    ∃ codeAddr codeBytes, env.codeSection = .ok (codeAddr, codeBytes) ∧
      md.TextAddr ≤ (md.TextAddr + md.TextLen) % 2 ^ 64 ∧
      codeAddr ≤ md.TextAddr ∧
      md.TextAddr < (codeAddr + codeBytes.length) % 2 ^ 64 := by
  induction fuel generalizing secData with
  | zero => simp [mdSearchLoop] at h
  | succ n ih =>
    unfold mdSearchLoop at h
    cases hio : indexOfSub secData magic with
    | none => simp only [hio] at h; exact GoResult.noConfusion h
    | some off =>
      simp only [hio] at h
      by_cases hb : secData.length < off + vmd.size
      · rw [if_pos hb] at h; cases h
      · rw [if_neg hb] at h
        cases ht : mdTryAt env vmd secData off with
        | success md2 =>
          simp only [ht] at h
          cases h
          exact mdTryAt_success env vmd secData off md ht
        | failure e => simp only [ht] at h; exact GoResult.noConfusion h
        | invalid =>
          simp only [ht] at h
          by_cases hd : off + 1 ≤ secData.length
          · rw [if_pos hd] at h
            exact ih (secData.drop (off + 1)) h
          · rw [if_neg hd] at h; cases h

/-- C2 as amended: every moduledata record returned by extractModuledata
satisfies text ≤ etext (with etext = TextAddr + TextLen reduced mod 2^64, as
the code computes it) and text itself lies inside the code section
[codeSectionStart, codeSectionStart + len(codeSectionBytes)); the endpoint
etext is not compared against the code section and can lie outside it. -/
theorem extractModuledata_validates (env : ModEnv) (md : Moduledata)
    (h : extractModuledata env = .ok md) :
    ∃ codeAddr codeBytes, env.codeSection = .ok (codeAddr, codeBytes) ∧
      md.TextAddr ≤ (md.TextAddr + md.TextLen) % 2 ^ 64 ∧
      codeAddr ≤ md.TextAddr ∧
      md.TextAddr < (codeAddr + codeBytes.length) % 2 ^ 64 := by
  unfold extractModuledata at h
  cases hp : env.vmdPick with
  | error e => simp only [hp] at h; exact GoResult.noConfusion h
  | ok vmd =>
    simp only [hp] at h
    cases hsd : env.secData with
    | error e => simp only [hsd] at h; exact GoResult.noConfusion h
    | ok p =>
      obtain ⟨secAddr, secData⟩ := p
      simp only [hsd] at h
      cases hsy : mdSymOff env.hasSymbolTable env.symFirstmoduledata secAddr with
      | some offI =>
        simp only [hsy] at h
        by_cases h1 : offI = -1
        · rw [if_pos h1] at h; cases h
        · rw [if_neg h1] at h
          by_cases h2 : (secData.length : Int) < offI + vmd.size
          · rw [if_pos h2] at h; cases h
          · rw [if_neg h2] at h
            by_cases h3 : offI < 0
            · rw [if_pos h3] at h; cases h
            · rw [if_neg h3] at h
              cases ht : mdTryAt env vmd secData offI.toNat with
              | success md2 =>
                simp only [ht] at h
                cases h
                exact mdTryAt_success env vmd secData offI.toNat md ht
              | failure e => simp only [ht] at h; exact GoResult.noConfusion h
              | invalid =>
                simp only [ht] at h
                by_cases hd : offI.toNat + 1 ≤ secData.length
                · rw [if_pos hd] at h
                  exact mdSearchLoop_validates env vmd [] (secData.length + 1)
                    (secData.drop (offI.toNat + 1)) md h
                · rw [if_neg hd] at h; cases h
      | none =>
        simp only [hsy] at h
        cases hpc : env.pclntabInit with
        | error e => simp only [hpc] at h; exact GoResult.noConfusion h
        | ok tabAddr =>
          simp only [hpc] at h
          exact mdSearchLoop_validates env vmd _ (secData.length + 1) secData md h

/-- Modelled from the spec: the generated 64-bit versioned moduledata layouts
are not under src.  This layout follows the spec text (current layouts keep
text and etext at word indices 22 and 23) and the generator templates under
src/gen (a text/etext address pair is normalized to TextAddr = text and
TextLen = etext - text in uint64 arithmetic; the remaining fields are not
relevant here and normalize to zero). -/
def c2layout : Modulable :=
  ⟨192, fun data =>
    { TextAddr := ByteOrder.le.readUint64 (data.drop 176)
      TextLen := (ByteOrder.le.readUint64 (data.drop 184) + 2 ^ 64 -
        ByteOrder.le.readUint64 (data.drop 176)) % 2 ^ 64
      NoPtrDataAddr := 0, NoPtrDataLen := 0, DataAddr := 0, DataLen := 0
      BssAddr := 0, BssLen := 0, NoPtrBssAddr := 0, NoPtrBssLen := 0
      TypesAddr := 0, TypesLen := 0, TypelinkAddr := 0, TypelinkLen := 0
      ITabLinkAddr := 0, ITabLinkLen := 0, FuncTabAddr := 0, FuncTabLen := 0
      PCLNTabAddr := 0, PCLNTabLen := 0, GoFuncVal := 0 }⟩

/-- A moduledata section image for the C2 counterexample: the pclntab address
0x5000 at word 0, zero words up to word 21, text = 0x1000 at word 22 and
etext = 0x2000 at word 23. -/
def c2secData : List Nat :=
  ByteOrder.le.putUint64Bytes 0x5000 ++ List.replicate 168 0 ++
    ByteOrder.le.putUint64Bytes 0x1000 ++ ByteOrder.le.putUint64Bytes 0x2000

/-- The environment for the C2 counterexample: 64-bit little-endian file, no
symbol table, pclntab at 0x5000, code section of 0x100 bytes based at
0x1000. -/
def c2env : ModEnv :=
  { wordSize := 8
    byteOrder := .le
    secData := .ok (0x4000, c2secData)
    hasSymbolTable := (false, none)
    symFirstmoduledata := .error "symbol not found"
    pclntabInit := .ok 0x5000
    codeSection := .ok (0x1000, List.replicate 0x100 0)
    vmdPick := .ok c2layout }

/-- The record extractModuledata returns on the C2 counterexample
environment. -/
def c2md : Moduledata :=
  { TextAddr := 0x1000, TextLen := 0x1000
    NoPtrDataAddr := 0, NoPtrDataLen := 0, DataAddr := 0, DataLen := 0
    BssAddr := 0, BssLen := 0, NoPtrBssAddr := 0, NoPtrBssLen := 0
    TypesAddr := 0, TypesLen := 0, TypelinkAddr := 0, TypelinkLen := 0
    ITabLinkAddr := 0, ITabLinkLen := 0, FuncTabAddr := 0, FuncTabLen := 0
    PCLNTabAddr := 0, PCLNTabLen := 0, GoFuncVal := 0 }

set_option maxRecDepth 8000

/-- Counterexample to C2 as stated: extractModuledata returns a record whose
etext = TextAddr + TextLen = 0x2000 lies far outside the code section
[0x1000, 0x1100); the validation only constrains the text endpoint, so the
scan does not advance past this candidate. -/
theorem extractModuledata_returns_etext_outside :
    extractModuledata c2env = .ok c2md ∧
    0x1000 + (List.replicate 0x100 (0 : Nat)).length ≤ c2md.TextAddr + c2md.TextLen := by
  constructor
  · decide
  · rw [List.length_replicate]
    decide

/-- Witness for the amended C2 at the counterexample environment. -/
theorem extractModuledata_validates_witness :
    c2md.TextAddr ≤ (c2md.TextAddr + c2md.TextLen) % 2 ^ 64 := by
  obtain ⟨a, b, hab, h1, h2, h3⟩ := extractModuledata_validates c2env c2md (by decide)
  exact h1

/- ---------------------------------------------------------------------------
   goversion.go GoVersionCompare
--------------------------------------------------------------------------- -/

/-- strings.Split on the separator ".": split into the (possibly empty)
pieces between dots; the result is never empty. -/
def splitOnDot : List Char → List (List Char)
  | [] => [[]]
  | c :: rest =>
    if c = '.' then [] :: splitOnDot rest
    else
      match splitOnDot rest with
      | [] => [[c]]
      | h :: t => (c :: h) :: t

/-- Numeric value of a digit character. -/
def digitVal (c : Char) : Nat := c.toNat - 48

/-- Digit-by-digit accumulation of strconv.Atoi; fails on a non-digit. -/
def atoiCore : List Char → Nat → Option Nat
  | [], acc => some acc
  | c :: t, acc => if c.isDigit then atoiCore t (10 * acc + digitVal c) else none

/-- strconv.Atoi: optional sign, then at least one digit, all digits; the
int64 overflow error is not modelled (the claims only use small values). -/
def atoi (l : List Char) : Option Int :=
  match l with
  | [] => none
  | c :: t =>
    if c = '-' then
      (if t.isEmpty then none else (atoiCore t 0).map (fun n => -(n : Int)))
    else if c = '+' then
      (if t.isEmpty then none else (atoiCore t 0).map (fun n => (n : Int)))
    else (atoiCore (c :: t) 0).map (fun n => (n : Int))

def betaChars : List Char := ['b', 'e', 't', 'a']

def rcChars : List Char := ['r', 'c']

def goChars : List Char := ['g', 'o']

/-- The minor-version parsing block of GoVersionCompare on the second dot
piece: locate "beta" or "rc" (beta first, as the code checks Contains with
beta first), split the piece there, and Atoi both halves; the result is
(minor, beta, rc) with 0 for the absent parts.  Any Atoi failure is a panic,
modelled as none. -/
def parseMinor (s : List Char) : Option (Int × Int × Int) :=
  match indexOfSub s betaChars with
  | some idx =>
    match atoi (s.drop (idx + 4)), atoi (s.take idx) with
    | some bt, some mn => some (mn, bt, 0)
    | _, _ => none
  | none =>
    match indexOfSub s rcChars with
    | some idx =>
      match atoi (s.drop (idx + 2)), atoi (s.take idx) with
      | some rcv, some mn => some (mn, 0, rcv)
      | _, _ => none
    | none =>
      match atoi s with
      | some mn => some (mn, 0, 0)
      | none => none

/-- The body of GoVersionCompare after the string-equality shortcut, working
on the dot-split pieces.  none models a panic: a first piece shorter than 2
bytes (the [:2] or [2:] slice), neither first piece starting with "go", or a
failing Atoi.  The comparison ladder mirrors the source: majors, the bare
goMAJ cases, minors, piece-count, patch numbers, then the beta/rc block. -/
def goVersionCompareMain (aa ab : List (List Char)) : Option Int :=
  if aa.headI.length < 2 then none
  else if aa.headI.take 2 ≠ goChars ∧ ab.headI.length < 2 then none
  else if aa.headI.take 2 ≠ goChars ∧ ab.headI.take 2 ≠ goChars then none
  else
    match atoi (aa.headI.drop 2) with
    | none => none
    | some amaj =>
      if ab.headI.length < 2 then none
      else
        match atoi (ab.headI.drop 2) with
        | none => none
        | some bmaj =>
          if amaj < bmaj then some (-1)
          else if bmaj < amaj then some 1
          else if aa.length = 1 then some (-1)
          else if ab.length = 1 then some 1
          else
            match parseMinor (aa.getI 1) with
            | none => none
            | some (amin, abeta, arc) =>
              match parseMinor (ab.getI 1) with
              | none => none
              | some (bmin, bbeta, brc) =>
                if amin < bmin then some (-1)
                else if bmin < amin then some 1
                else if ab.length < aa.length then some 1
                else if aa.length < ab.length then some (-1)
                else if aa.length = 3 ∧ ab.length = 3 then
                  match atoi (aa.getI 2), atoi (ab.getI 2) with
                  | some apatch, some bpatch =>
                    if bpatch < apatch then some 1 else some (-1)
                  | _, _ => none
                else if abeta < bbeta then (if abeta ≠ 0 then some (-1) else some 1)
                else if bbeta < abeta then (if bbeta ≠ 0 then some 1 else some (-1))
                else if arc < brc then (if arc ≠ 0 then some (-1) else some 1)
                else if brc ≠ 0 then some 1
                else some (-1)

/-- goversion.go GoVersionCompare on character lists: equal strings compare
as 0, otherwise the pieces ladder runs. -/
def goVersionCompareL (a b : List Char) : Option Int :=
  if a = b then some 0 else goVersionCompareMain (splitOnDot a) (splitOnDot b)

/-- goversion.go GoVersionCompare. -/
def GoVersionCompare (a b : String) : Option Int :=
  goVersionCompareL a.toList b.toList

/-- C5: the version comparator returns exactly the claimed values on the five
claimed input pairs (0 on equal strings; bare goMAJ below goMAJ.x; beta below
rc below release; patch above release). -/
theorem goVersionCompare_cases :
    GoVersionCompare "go2.0.0" "go1.0.0" = some 1 ∧
    GoVersionCompare "go1.7.1" "go1.7.1" = some 0 ∧
    GoVersionCompare "go1.7" "go1.7beta1" = some 1 ∧
    GoVersionCompare "go1.7rc1" "go1.7beta1" = some 1 ∧
    GoVersionCompare "go1" "go1.4beta1" = some (-1) := by decide

/- ---------------------------------------------------------------------------
   C6: the comparator on the known-versions table.
   The generated table itself is not under src; per the spec it holds tags of
   the forms goMAJ and goMAJ.MIN[.PATCH | betaN | rcN], with canonically
   written numbers and N at least 1.  Tags are modelled by that grammar.
--------------------------------------------------------------------------- -/

/-- A canonically written decimal number: nonempty, all digits, and either
the single digit 0 or no leading zero. -/
def canonNum (s : List Char) : Bool :=
  (!s.isEmpty) && s.all Char.isDigit && (s == ['0'] || !(s.headI == '0'))

/-- Value of a digit string. -/
def digitsVal (s : List Char) : Nat :=
  s.foldl (fun acc c => 10 * acc + digitVal c) 0

/-- The tail of a version tag after goMAJ.MIN: nothing, betaN, rcN, or a
patch number. -/
inductive GoTagSuffix where
  | rel
  | beta (k : List Char)
  | rc (k : List Char)
  | patch (p : List Char)
  deriving DecidableEq, Repr

/-- A version tag of the table grammar: goMAJ or goMAJ.MIN with a suffix. -/
inductive GoTag where
  | majOnly (m : List Char)
  | ver (m n : List Char) (s : GoTagSuffix)
  deriving DecidableEq, Repr

/-- Canonical suffix: beta/rc numbers are canonical and nonzero, patch
numbers canonical. -/
def canonSuffix : GoTagSuffix → Bool
  | .rel => true
  | .beta k => canonNum k && !(k == ['0'])
  | .rc k => canonNum k && !(k == ['0'])
  | .patch p => canonNum p

/-- Canonical tag: every numeric component canonical. -/
def canonTag : GoTag → Bool
  | .majOnly m => canonNum m
  | .ver m n s => canonNum m && canonNum n && canonSuffix s

/-- The major component. -/
def majOf : GoTag → List Char
  | .majOnly m => m
  | .ver m _ _ => m

/-- The rendered tag string. -/
def renderTag : GoTag → List Char
  | .majOnly m => goChars ++ m
  | .ver m n .rel => goChars ++ m ++ ['.'] ++ n
  | .ver m n (.beta k) => goChars ++ m ++ ['.'] ++ n ++ betaChars ++ k
  | .ver m n (.rc k) => goChars ++ m ++ ['.'] ++ n ++ rcChars ++ k
  | .ver m n (.patch p) => goChars ++ m ++ ['.'] ++ n ++ ['.'] ++ p

/-- The dot pieces of a rendered canonical tag. -/
def splitParts : GoTag → List (List Char)
  | .majOnly m => [goChars ++ m]
  | .ver m n .rel => [goChars ++ m, n]
  | .ver m n (.beta k) => [goChars ++ m, n ++ betaChars ++ k]
  | .ver m n (.rc k) => [goChars ++ m, n ++ rcChars ++ k]
  | .ver m n (.patch p) => [goChars ++ m, n, p]

/-- The beta number of a suffix (0 when absent). -/
def suffixBeta : GoTagSuffix → Nat
  | .beta k => digitsVal k
  | _ => 0

/-- The rc number of a suffix (0 when absent). -/
def suffixRc : GoTagSuffix → Nat
  | .rc k => digitsVal k
  | _ => 0

/-- The dot pieces after the goMAJ piece, as a function of the minor and the
suffix. -/
def tailPartsS (n : List Char) : GoTagSuffix → List (List Char)
  | .rel => [n]
  | .beta k => [n ++ betaChars ++ k]
  | .rc k => [n ++ rcChars ++ k]
  | .patch p => [n, p]

/-- The comparison value of the ladder after equal majors on two goMAJ.MIN
tags: minors, piece counts, patch numbers, then the beta/rc block. -/
def innerCmpVal (n1 : List Char) (s1 : GoTagSuffix) (n2 : List Char)
    (s2 : GoTagSuffix) : Int :=
  if digitsVal n1 < digitsVal n2 then -1
  else if digitsVal n2 < digitsVal n1 then 1
  else
    match s1, s2 with
    | .patch p1, .patch p2 => if digitsVal p2 < digitsVal p1 then 1 else -1
    | .patch _, _ => 1
    | _, .patch _ => -1
    | _, _ =>
      if suffixBeta s1 < suffixBeta s2 then
        (if suffixBeta s1 ≠ 0 then -1 else 1)
      else if suffixBeta s2 < suffixBeta s1 then
        (if suffixBeta s2 ≠ 0 then 1 else -1)
      else if suffixRc s1 < suffixRc s2 then
        (if suffixRc s1 ≠ 0 then -1 else 1)
      else if suffixRc s2 ≠ 0 then 1
      else -1

/-- The comparison value GoVersionCompare realizes on two distinct rendered
canonical tags, extracted from the source's ladder: majors, bare-major cases,
then the inner ladder. -/
def tagCmpVal (t1 t2 : GoTag) : Int :=
  if digitsVal (majOf t1) < digitsVal (majOf t2) then -1
  else if digitsVal (majOf t2) < digitsVal (majOf t1) then 1
  else
    match t1, t2 with
    | .majOnly _, _ => -1
    | .ver _ _ _, .majOnly _ => 1
    | .ver _ n1 s1, .ver _ n2 s2 => innerCmpVal n1 s1 n2 s2

/-- A digit is none of the separator characters. -/
lemma isDigit_ne (c : Char) (h : c.isDigit = true) :
    c ≠ '.' ∧ c ≠ '-' ∧ c ≠ '+' ∧ c ≠ 'b' ∧ c ≠ 'r' := by
  refine ⟨?_, ?_, ?_, ?_, ?_⟩ <;> (intro he; subst he; simp [Char.isDigit] at h)

/-- Digit characters have code points between 48 and 57. -/
lemma isDigit_bounds (c : Char) (h : c.isDigit = true) :
    48 ≤ c.toNat ∧ c.toNat ≤ 57 := by
  simp [Char.isDigit, decide_eq_true_eq] at h
  exact ⟨h.1, h.2⟩

/-- Characters with equal code points are equal. -/
lemma char_toNat_inj (a b : Char) (h : a.toNat = b.toNat) : a = b := by
  apply Char.ext
  apply UInt32.ext
  simpa [Char.toNat] using h

/-- The accumulator form of digitsVal. -/
lemma foldl_digits (s : List Char) (acc : Nat) :
    s.foldl (fun a c => 10 * a + digitVal c) acc =
      acc * 10 ^ s.length + digitsVal s := by
  induction s generalizing acc with
  | nil => simp [digitsVal]
  | cons c t ih =>
    simp only [List.foldl_cons, List.length_cons, digitsVal]
    rw [ih (10 * acc + digitVal c), ih (10 * 0 + digitVal c)]
    ring

/-- Cons form of digitsVal. -/
lemma digitsVal_cons (c : Char) (t : List Char) :
    digitsVal (c :: t) = digitVal c * 10 ^ t.length + digitsVal t := by
  simp only [digitsVal, List.foldl_cons]
  rw [foldl_digits t (10 * 0 + digitVal c)]
  simp only [digitsVal]
  ring

/-- digitsVal is below 10 to the length. -/
lemma digitsVal_lt (s : List Char) (h : s.all Char.isDigit = true) :
    digitsVal s < 10 ^ s.length := by
  induction s with
  | nil => simp [digitsVal]
  | cons c t ih =>
    simp only [List.all_cons, Bool.and_eq_true] at h
    have hd := isDigit_bounds c h.1
    have ht := ih h.2
    rw [digitsVal_cons]
    have : digitVal c ≤ 9 := by unfold digitVal; omega
    calc digitVal c * 10 ^ t.length + digitsVal t
        ≤ 9 * 10 ^ t.length + digitsVal t := by
          exact Nat.add_le_add_right (Nat.mul_le_mul_right _ this) _
      _ < 10 * 10 ^ t.length := by omega
      _ = 10 ^ (c :: t).length := by rw [List.length_cons]; ring

/-- A canonical number other than 0 is at least 10 to the length minus 1. -/
lemma digitsVal_ge (s : List Char) (h : s.all Char.isDigit = true)
    (hne : s ≠ []) (h0 : s.headI ≠ '0') :
    10 ^ (s.length - 1) ≤ digitsVal s := by
  cases s with
  | nil => exact absurd rfl hne
  | cons c t =>
    simp only [List.all_cons, Bool.and_eq_true] at h
    have hd := isDigit_bounds c h.1
    have hc0 : c ≠ '0' := by simpa using h0
    have h0v : ('0' : Char).toNat = 48 := by decide
    have hdv : 1 ≤ digitVal c := by
      unfold digitVal
      rcases Nat.lt_or_ge 48 c.toNat with hgt | hle
      · omega
      · exfalso
        exact hc0 (char_toNat_inj c '0' (by omega))
    rw [digitsVal_cons]
    simp only [List.length_cons, Nat.add_sub_cancel]
    calc 10 ^ t.length = 1 * 10 ^ t.length := by ring
      _ ≤ digitVal c * 10 ^ t.length := Nat.mul_le_mul_right _ hdv
      _ ≤ digitVal c * 10 ^ t.length + digitsVal t := Nat.le_add_right _ _

/-- Digit strings of equal length and value are equal. -/
lemma digits_eq_of_val_eq (a b : List Char) (ha : a.all Char.isDigit = true)
    (hb : b.all Char.isDigit = true) (hlen : a.length = b.length)
    (h : digitsVal a = digitsVal b) : a = b := by
  induction a generalizing b with
  | nil =>
    cases b with
    | nil => rfl
    | cons c t => simp at hlen
  | cons c t ih =>
    cases b with
    | nil => simp at hlen
    | cons d u =>
      simp only [List.all_cons, Bool.and_eq_true] at ha hb
      simp only [List.length_cons, Nat.add_right_cancel_iff] at hlen
      rw [digitsVal_cons, digitsVal_cons, hlen] at h
      have hta := digitsVal_lt t ha.2
      have htb := digitsVal_lt u hb.2
      rw [hlen] at hta
      have key : ∀ x y vx vy : Nat, x * 10 ^ u.length + vx = y * 10 ^ u.length + vy →
          vx < 10 ^ u.length → vy < 10 ^ u.length → x = y ∧ vx = vy := by
        intro x y vx vy hxy hvx hvy
        have hx : x = y := by
          rcases Nat.lt_trichotomy x y with hlt | he | hgt
          · exfalso
            have hle : (x + 1) * 10 ^ u.length ≤ y * 10 ^ u.length :=
              Nat.mul_le_mul_right _ hlt
            have : x * 10 ^ u.length + vx < y * 10 ^ u.length + vy := by
              calc x * 10 ^ u.length + vx < x * 10 ^ u.length + 10 ^ u.length :=
                    Nat.add_lt_add_left hvx _
                _ = (x + 1) * 10 ^ u.length := by ring
                _ ≤ y * 10 ^ u.length := hle
                _ ≤ y * 10 ^ u.length + vy := Nat.le_add_right _ _
            omega
          · exact he
          · exfalso
            have hle : (y + 1) * 10 ^ u.length ≤ x * 10 ^ u.length :=
              Nat.mul_le_mul_right _ hgt
            have : y * 10 ^ u.length + vy < x * 10 ^ u.length + vx := by
              calc y * 10 ^ u.length + vy < y * 10 ^ u.length + 10 ^ u.length :=
                    Nat.add_lt_add_left hvy _
                _ = (y + 1) * 10 ^ u.length := by ring
                _ ≤ x * 10 ^ u.length := hle
                _ ≤ x * 10 ^ u.length + vx := Nat.le_add_right _ _
            omega
        subst hx
        exact ⟨rfl, by omega⟩
      have hdc := key (digitVal c) (digitVal d) (digitsVal t) (digitsVal u) h hta htb
      have hc : c = d := by
        have h48a := isDigit_bounds c ha.1
        have h48b := isDigit_bounds d hb.1
        apply char_toNat_inj
        have := hdc.1
        unfold digitVal at this
        omega
      rw [hc, ih u ha.2 hb.2 hlen hdc.2]

/-- The three parts of the canonNum predicate. -/
lemma canonNum_fields (s : List Char) (h : canonNum s = true) :
    s ≠ [] ∧ s.all Char.isDigit = true ∧ (s = ['0'] ∨ s.headI ≠ '0') := by
  simp only [canonNum, Bool.and_eq_true, Bool.or_eq_true, beq_iff_eq,
    Bool.not_eq_true'] at h
  obtain ⟨⟨h1, h2⟩, h3⟩ := h
  refine ⟨?_, h2, ?_⟩
  · intro he
    subst he
    simp at h1
  · rcases h3 with h3 | h3
    · exact Or.inl h3
    · exact Or.inr (by simpa using h3)

/-- A shorter canonical number has a strictly smaller value than a longer
one. -/
lemma canonNum_val_lt_of_length_lt (a b : List Char) (ha : canonNum a = true)
    (hb : canonNum b = true) (hlt : a.length < b.length) :
    digitsVal a < digitsVal b := by
  obtain ⟨hane, hadig, _⟩ := canonNum_fields a ha
  obtain ⟨hbne, hbdig, hb0⟩ := canonNum_fields b hb
  rcases hb0 with hb0 | hb0
  · subst hb0
    have h1 : a.length < 1 := by simpa using hlt
    exact absurd (List.eq_nil_of_length_eq_zero (by omega)) hane
  · have h1 := digitsVal_ge b hbdig hbne hb0
    have h2 := digitsVal_lt a hadig
    have h3 : 10 ^ a.length ≤ 10 ^ (b.length - 1) :=
      Nat.pow_le_pow_right (by norm_num) (by omega)
    omega

/-- Canonical numbers with equal values are equal strings. -/
lemma canonNum_val_inj (a b : List Char) (ha : canonNum a = true)
    (hb : canonNum b = true) (h : digitsVal a = digitsVal b) : a = b := by
  obtain ⟨_, hadig, _⟩ := canonNum_fields a ha
  obtain ⟨_, hbdig, _⟩ := canonNum_fields b hb
  rcases Nat.lt_trichotomy a.length b.length with hl | hl | hl
  · exact absurd h (Nat.ne_of_lt (canonNum_val_lt_of_length_lt a b ha hb hl))
  · exact digits_eq_of_val_eq a b hadig hbdig hl h
  · exact absurd h.symm (Nat.ne_of_lt (canonNum_val_lt_of_length_lt b a hb ha hl))

/-- A canonical number other than the string 0 has a nonzero value. -/
lemma canonNum_val_ne_zero (k : List Char) (hk : canonNum k = true)
    (hne : k ≠ ['0']) : digitsVal k ≠ 0 := by
  intro h0
  exact hne (canonNum_val_inj k ['0'] hk (by decide) (by rw [h0]; decide))

/-- splitOnDot of a dot-free string. -/
lemma splitOnDot_no_dot (x : List Char) (hx : '.' ∉ x) : splitOnDot x = [x] := by
  induction x with
  | nil => rfl
  | cons c t ih =>
    simp only [List.mem_cons, not_or] at hx
    have hc : ¬ c = '.' := fun h => hx.1 h.symm
    simp only [splitOnDot, if_neg hc, ih hx.2]

/-- splitOnDot splits at the first dot. -/
lemma splitOnDot_append (x y : List Char) (hx : '.' ∉ x) :
    splitOnDot (x ++ '.' :: y) = x :: splitOnDot y := by
  induction x with
  | nil => simp [splitOnDot]
  | cons c t ih =>
    simp only [List.mem_cons, not_or] at hx
    have hc : ¬ c = '.' := fun h => hx.1 h.symm
    simp only [List.cons_append, splitOnDot, List.append_eq, if_neg hc, ih hx.2]

/-- atoiCore succeeds on all-digit strings with the foldl value. -/
lemma atoiCore_digits (s : List Char) (acc : Nat) (h : s.all Char.isDigit = true) :
    atoiCore s acc = some (s.foldl (fun a c => 10 * a + digitVal c) acc) := by
  induction s generalizing acc with
  | nil => rfl
  | cons c t ih =>
    simp only [List.all_cons, Bool.and_eq_true] at h
    simp only [atoiCore, h.1, if_true, List.foldl_cons]
    exact ih _ h.2

/-- atoi succeeds on nonempty all-digit strings with the digits value. -/
lemma atoi_digits (s : List Char) (hdig : s.all Char.isDigit = true)
    (hne : s ≠ []) : atoi s = some ((digitsVal s : Nat) : Int) := by
  cases s with
  | nil => exact absurd rfl hne
  | cons c t =>
    simp only [List.all_cons, Bool.and_eq_true] at hdig
    have hnc := isDigit_ne c hdig.1
    simp only [atoi]
    rw [if_neg hnc.2.1, if_neg hnc.2.2.1]
    rw [atoiCore_digits (c :: t) 0 (by simp [List.all_cons, hdig.1, hdig.2])]
    simp [digitsVal]

/-- A list is a prefix of itself followed by anything. -/
lemma isPrefixOf_append_self {α : Type} [DecidableEq α] (l t : List α) :
    l.isPrefixOf (l ++ t) = true := by
  induction l with
  | nil => simp [List.isPrefixOf]
  | cons c r ih => simp [List.isPrefixOf, ih]

/-- The cons equation of indexOfSub when the pattern is not a prefix. -/
lemma indexOfSub_cons_neg {α : Type} [DecidableEq α] (c : α) (t pat : List α)
    (h : ¬ pat.isPrefixOf (c :: t) = true) :
    indexOfSub (c :: t) pat = (indexOfSub t pat).map (· + 1) := by
  show (if pat.isPrefixOf (c :: t) = true then some 0
    else (indexOfSub t pat).map (· + 1)) = (indexOfSub t pat).map (· + 1)
  rw [if_neg h]

/-- indexOfSub returns 0 when the pattern is a prefix. -/
lemma indexOfSub_pos {α : Type} [DecidableEq α] (l pat : List α)
    (h : pat.isPrefixOf l = true) : indexOfSub l pat = some 0 := by
  cases l with
  | nil =>
    show (if pat.isPrefixOf ([] : List α) = true then some 0 else none) = some 0
    rw [if_pos h]
  | cons c t =>
    show (if pat.isPrefixOf (c :: t) = true then some 0
      else (indexOfSub t pat).map (· + 1)) = some 0
    rw [if_pos h]

/-- A pattern does not occur in a list avoiding its first element. -/
lemma indexOfSub_none {α : Type} [DecidableEq α] (l : List α) (p : α) (pt : List α)
    (h : ∀ c ∈ l, c ≠ p) : indexOfSub l (p :: pt) = none := by
  induction l with
  | nil => rfl
  | cons c t ih =>
    have hc : ¬ (p :: pt).isPrefixOf (c :: t) = true := by
      have hcp : c ≠ p := h c (List.mem_cons_self c t)
      simp [List.isPrefixOf]
      intro hpc
      exact absurd hpc.symm hcp
    rw [indexOfSub_cons_neg c t (p :: pt) hc,
      ih (fun x hx => h x (List.mem_cons_of_mem c hx))]
    rfl

/-- The first occurrence of a pattern placed after a stretch avoiding its
first element is exactly at the stretch length. -/
lemma indexOfSub_at {α : Type} [DecidableEq α] (x y : List α) (p : α) (pt : List α)
    (hx : ∀ c ∈ x, c ≠ p) :
    indexOfSub (x ++ (p :: pt) ++ y) (p :: pt) = some x.length := by
  induction x with
  | nil =>
    simp only [List.nil_append]
    exact indexOfSub_pos _ _ (isPrefixOf_append_self (p :: pt) y)
  | cons c t ih =>
    have hcp : c ≠ p := hx c (List.mem_cons_self c t)
    have hc : ¬ (p :: pt).isPrefixOf (c :: (t ++ (p :: pt) ++ y)) = true := by
      simp [List.isPrefixOf]
      intro hpc
      exact absurd hpc.symm hcp
    have hstep : (c :: t) ++ (p :: pt) ++ y = c :: (t ++ (p :: pt) ++ y) := by simp
    rw [hstep, indexOfSub_cons_neg c _ _ hc,
      ih (fun z hz => hx z (List.mem_cons_of_mem c hz))]
    rfl

/-- Dropping a left part plus an extra amount. -/
lemma drop_len_add {α : Type} (x z : List α) (k : Nat) :
    (x ++ z).drop (x.length + k) = z.drop k := by
  induction x with
  | nil => simp
  | cons c t ih =>
    simp only [List.cons_append, List.length_cons]
    rw [show t.length + 1 + k = (t.length + k) + 1 from by omega]
    simp only [List.drop_succ_cons]
    exact ih

/-- parseMinor on a plain canonical minor. -/
lemma parseMinor_plain (n : List Char) (h : canonNum n = true) :
    parseMinor n = some ((digitsVal n : Int), 0, 0) := by
  obtain ⟨hne, hdig, _⟩ := canonNum_fields n h
  have hmem : ∀ c ∈ n, c.isDigit = true := fun c hc => List.all_eq_true.mp hdig c hc
  have hb : indexOfSub n betaChars = none := by
    rw [show betaChars = 'b' :: ['e', 't', 'a'] from rfl]
    exact indexOfSub_none n 'b' _ (fun c hc => (isDigit_ne c (hmem c hc)).2.2.2.1)
  have hr : indexOfSub n rcChars = none := by
    rw [show rcChars = 'r' :: ['c'] from rfl]
    exact indexOfSub_none n 'r' _ (fun c hc => (isDigit_ne c (hmem c hc)).2.2.2.2)
  unfold parseMinor
  rw [hb, hr, atoi_digits n hdig hne]

/-- parseMinor on a canonical beta minor. -/
lemma parseMinor_beta (n k : List Char) (hn : canonNum n = true)
    (hk : canonNum k = true) :
    parseMinor (n ++ betaChars ++ k) =
      some ((digitsVal n : Int), (digitsVal k : Int), 0) := by
  obtain ⟨hnne, hndig, _⟩ := canonNum_fields n hn
  obtain ⟨hkne, hkdig, _⟩ := canonNum_fields k hk
  have hmemn : ∀ c ∈ n, c.isDigit = true := fun c hc => List.all_eq_true.mp hndig c hc
  have hb : indexOfSub (n ++ betaChars ++ k) betaChars = some n.length := by
    rw [show betaChars = 'b' :: ['e', 't', 'a'] from rfl]
    exact indexOfSub_at n k 'b' _ (fun c hc => (isDigit_ne c (hmemn c hc)).2.2.2.1)
  have hdrop : (n ++ betaChars ++ k).drop (n.length + 4) = k := by
    rw [List.append_assoc, drop_len_add]
    rfl
  have htake : (n ++ betaChars ++ k).take n.length = n := by
    rw [List.append_assoc, List.take_left]
  unfold parseMinor
  simp only [hb]
  rw [hdrop, htake, atoi_digits k hkdig hkne, atoi_digits n hndig hnne]

/-- parseMinor on a canonical rc minor. -/
lemma parseMinor_rc (n k : List Char) (hn : canonNum n = true)
    (hk : canonNum k = true) :
    parseMinor (n ++ rcChars ++ k) =
      some ((digitsVal n : Int), 0, (digitsVal k : Int)) := by
  obtain ⟨hnne, hndig, _⟩ := canonNum_fields n hn
  obtain ⟨hkne, hkdig, _⟩ := canonNum_fields k hk
  have hmemn : ∀ c ∈ n, c.isDigit = true := fun c hc => List.all_eq_true.mp hndig c hc
  have hmemk : ∀ c ∈ k, c.isDigit = true := fun c hc => List.all_eq_true.mp hkdig c hc
  have hb : indexOfSub (n ++ rcChars ++ k) betaChars = none := by
    rw [show betaChars = 'b' :: ['e', 't', 'a'] from rfl]
    refine indexOfSub_none _ 'b' _ ?_
    intro c hc
    have hc4 : c ∈ n ∨ c = 'r' ∨ c = 'c' ∨ c ∈ k := by
      simpa [rcChars, List.append_assoc, or_assoc] using hc
    rcases hc4 with h1 | h1 | h1 | h1
    · exact (isDigit_ne c (hmemn c h1)).2.2.2.1
    · subst h1; decide
    · subst h1; decide
    · exact (isDigit_ne c (hmemk c h1)).2.2.2.1
  have hr : indexOfSub (n ++ rcChars ++ k) rcChars = some n.length := by
    rw [show rcChars = 'r' :: ['c'] from rfl]
    exact indexOfSub_at n k 'r' _ (fun c hc => (isDigit_ne c (hmemn c hc)).2.2.2.2)
  have hdrop : (n ++ rcChars ++ k).drop (n.length + 2) = k := by
    rw [List.append_assoc, drop_len_add]
    rfl
  have htake : (n ++ rcChars ++ k).take n.length = n := by
    rw [List.append_assoc, List.take_left]
  unfold parseMinor
  simp only [hb, hr]
  rw [hdrop, htake, atoi_digits k hkdig hkne, atoi_digits n hndig hnne]

/-- The minor-and-below part of the comparison ladder of goVersionCompareMain,
on the dot pieces after the goMAJ pieces. -/
def minorLadder (t1p t2p : List (List Char)) : Option Int :=
  match parseMinor t1p.headI with
  | none => none
  | some (amin, abeta, arc) =>
    match parseMinor t2p.headI with
    | none => none
    | some (bmin, bbeta, brc) =>
      if amin < bmin then some (-1)
      else if bmin < amin then some 1
      else if t2p.length < t1p.length then some 1
      else if t1p.length < t2p.length then some (-1)
      else if t1p.length = 2 ∧ t2p.length = 2 then
        match atoi (t1p.getI 1), atoi (t2p.getI 1) with
        | some apatch, some bpatch =>
          if bpatch < apatch then some 1 else some (-1)
        | _, _ => none
      else if abeta < bbeta then (if abeta ≠ 0 then some (-1) else some 1)
      else if bbeta < abeta then (if bbeta ≠ 0 then some 1 else some (-1))
      else if arc < brc then (if arc ≠ 0 then some (-1) else some 1)
      else if brc ≠ 0 then some 1
      else some (-1)

/-- Prefix of goChars followed by anything takes apart. -/
lemma take2_go (m : List Char) : (goChars ++ m).take 2 = goChars := rfl

/-- The remainder after the goChars prefix. -/
lemma drop2_go (m : List Char) : (goChars ++ m).drop 2 = m := rfl

/-- getI 0 is headI. -/
lemma getI_zero_headI (l : List (List Char)) : l.getI 0 = l.headI := by
  cases l <;> rfl

/-- The split pieces of a rendered tag are the goMAJ piece and the tail
pieces. -/
lemma splitParts_eq (t : GoTag) :
    splitParts t = (goChars ++ majOf t) :: (match t with
      | .majOnly _ => []
      | .ver _ n s => tailPartsS n s) := by
  cases t with
  | majOnly m => rfl
  | ver m n s => cases s <;> rfl

/-- goVersionCompareMain on pieces with well-formed goMAJ heads reduces to
the major comparison, the bare-major cases, and the minor ladder. -/
lemma compareMain_go (m1 m2 : List Char) (t1p t2p : List (List Char))
    (hm1 : canonNum m1 = true) (hm2 : canonNum m2 = true) :
    goVersionCompareMain ((goChars ++ m1) :: t1p) ((goChars ++ m2) :: t2p) =
      (if digitsVal m1 < digitsVal m2 then some (-1)
       else if digitsVal m2 < digitsVal m1 then some 1
       else if t1p = [] then some (-1)
       else if t2p = [] then some 1
       else minorLadder t1p t2p) := by
  obtain ⟨hm1ne, hm1dig, _⟩ := canonNum_fields m1 hm1
  obtain ⟨hm2ne, hm2dig, _⟩ := canonNum_fields m2 hm2
  have hlen1 : ¬ ((goChars ++ m1) :: t1p).headI.length < 2 := by
    simp [List.headI, goChars]
  have hc2 : ¬ (((goChars ++ m1) :: t1p).headI.take 2 ≠ goChars ∧
      ((goChars ++ m2) :: t2p).headI.length < 2) := by
    simp [List.headI, take2_go]
  have hc3 : ¬ (((goChars ++ m1) :: t1p).headI.take 2 ≠ goChars ∧
      ((goChars ++ m2) :: t2p).headI.take 2 ≠ goChars) := by
    simp [List.headI, take2_go]
  have hlen2 : ¬ ((goChars ++ m2) :: t2p).headI.length < 2 := by
    simp [List.headI, goChars]
  unfold goVersionCompareMain
  rw [if_neg hlen1, if_neg hc2, if_neg hc3]
  simp only [List.headI, drop2_go]
  rw [atoi_digits m1 hm1dig hm1ne]
  simp only []
  rw [if_neg (by simp [List.headI, goChars])]
  rw [atoi_digits m2 hm2dig hm2ne]
  simp only []
  by_cases hmm1 : digitsVal m1 < digitsVal m2
  · rw [if_pos (by exact_mod_cast hmm1), if_pos hmm1]
  · rw [if_neg (by exact_mod_cast hmm1), if_neg hmm1]
    by_cases hmm2 : digitsVal m2 < digitsVal m1
    · rw [if_pos (by exact_mod_cast hmm2), if_pos hmm2]
    · rw [if_neg (by exact_mod_cast hmm2), if_neg hmm2]
      by_cases ht1 : t1p = []
      · subst ht1
        rw [if_pos rfl, if_pos (by simp)]
      · rw [if_neg ht1, if_neg (by simpa using ht1)]
        by_cases ht2 : t2p = []
        · subst ht2
          rw [if_pos rfl, if_pos (by simp)]
        · rw [if_neg ht2, if_neg (by simpa using ht2)]
          unfold minorLadder
          have hg1 : (((goChars ++ m1) :: t1p).getI 1) = t1p.headI := by
            rw [show ((goChars ++ m1) :: t1p).getI 1 = t1p.getI 0 from rfl,
              getI_zero_headI]
          have hg2 : (((goChars ++ m2) :: t2p).getI 1) = t2p.headI := by
            rw [show ((goChars ++ m2) :: t2p).getI 1 = t2p.getI 0 from rfl,
              getI_zero_headI]
          rw [hg1, hg2]
          cases hp1 : parseMinor t1p.headI with
          | none => rfl
          | some v1 =>
            obtain ⟨amin, abeta, arc⟩ := v1
            cases hp2 : parseMinor t2p.headI with
            | none => rfl
            | some v2 =>
              obtain ⟨bmin, bbeta, brc⟩ := v2
              simp only []
              by_cases ha1 : amin < bmin
              · rw [if_pos ha1, if_pos ha1]
              · rw [if_neg ha1, if_neg ha1]
                by_cases ha2 : bmin < amin
                · rw [if_pos ha2, if_pos ha2]
                · rw [if_neg ha2, if_neg ha2]
                  have hl1 : (((goChars ++ m2) :: t2p).length <
                      ((goChars ++ m1) :: t1p).length) = (t2p.length < t1p.length) := by
                    simp
                  have hl2 : (((goChars ++ m1) :: t1p).length <
                      ((goChars ++ m2) :: t2p).length) = (t1p.length < t2p.length) := by
                    simp
                  by_cases hb1 : t2p.length < t1p.length
                  · rw [if_pos (by simpa using hb1), if_pos hb1]
                  · rw [if_neg (by simpa using hb1), if_neg hb1]
                    by_cases hb2 : t1p.length < t2p.length
                    · rw [if_pos (by simpa using hb2), if_pos hb2]
                    · rw [if_neg (by simpa using hb2), if_neg hb2]
                      by_cases hb3 : t1p.length = 2 ∧ t2p.length = 2
                      · rw [if_pos (by simp only [List.length_cons]; omega),
                          if_pos hb3]
                        rw [show ((goChars ++ m1) :: t1p).getI 2 = t1p.getI 1 from rfl,
                          show ((goChars ++ m2) :: t2p).getI 2 = t2p.getI 1 from rfl]
                      · rw [if_neg (by simp only [List.length_cons]; omega),
                          if_neg hb3]

/-- The parts of a canonical beta suffix. -/
lemma canonSuffix_beta (k : List Char) (h : canonSuffix (.beta k) = true) :
    canonNum k = true ∧ 0 < digitsVal k := by
  simp only [canonSuffix, Bool.and_eq_true, Bool.not_eq_true', beq_eq_false_iff_ne] at h
  exact ⟨h.1, Nat.pos_of_ne_zero (canonNum_val_ne_zero k h.1 h.2)⟩

/-- The parts of a canonical rc suffix. -/
lemma canonSuffix_rc (k : List Char) (h : canonSuffix (.rc k) = true) :
    canonNum k = true ∧ 0 < digitsVal k := by
  simp only [canonSuffix, Bool.and_eq_true, Bool.not_eq_true', beq_eq_false_iff_ne] at h
  exact ⟨h.1, Nat.pos_of_ne_zero (canonNum_val_ne_zero k h.1 h.2)⟩

/-- The minor ladder on the tail pieces of two canonical goMAJ.MIN tags
computes the inner comparison value. -/
lemma minorLadder_eval (n1 n2 : List Char) (s1 s2 : GoTagSuffix)
    (hn1 : canonNum n1 = true) (hn2 : canonNum n2 = true)
    (hs1 : canonSuffix s1 = true) (hs2 : canonSuffix s2 = true) :
    minorLadder (tailPartsS n1 s1) (tailPartsS n2 s2) =
      some (innerCmpVal n1 s1 n2 s2) := by
  cases s1 with
  | rel =>
    cases s2 with
    | rel =>
      simp only [tailPartsS, minorLadder, List.headI, parseMinor_plain n1 hn1,
        parseMinor_plain n2 hn2, innerCmpVal, suffixBeta, suffixRc]
      by_cases h1 : digitsVal n1 < digitsVal n2
      · simp [Nat.cast_lt, h1]
      · by_cases h2 : digitsVal n2 < digitsVal n1
        · simp [Nat.cast_lt, h1, h2]
        · simp [Nat.cast_lt, h1, h2]
    | beta k2 =>
      obtain ⟨hk2, hk2pos⟩ := canonSuffix_beta k2 hs2
      simp only [tailPartsS, minorLadder, List.headI, parseMinor_plain n1 hn1,
        parseMinor_beta n2 k2 hn2 hk2, innerCmpVal, suffixBeta, suffixRc]
      by_cases h1 : digitsVal n1 < digitsVal n2
      · simp [Nat.cast_lt, h1]
      · by_cases h2 : digitsVal n2 < digitsVal n1
        · simp [Nat.cast_lt, h1, h2]
        · simp [Nat.cast_lt, h1, h2, hk2pos]
    | rc k2 =>
      obtain ⟨hk2, hk2pos⟩ := canonSuffix_rc k2 hs2
      simp only [tailPartsS, minorLadder, List.headI, parseMinor_plain n1 hn1,
        parseMinor_rc n2 k2 hn2 hk2, innerCmpVal, suffixBeta, suffixRc]
      by_cases h1 : digitsVal n1 < digitsVal n2
      · simp [Nat.cast_lt, h1]
      · by_cases h2 : digitsVal n2 < digitsVal n1
        · simp [Nat.cast_lt, h1, h2]
        · simp [Nat.cast_lt, h1, h2, hk2pos]
    | patch p2 =>
      simp only [tailPartsS, minorLadder, List.headI, parseMinor_plain n1 hn1,
        parseMinor_plain n2 hn2, innerCmpVal, suffixBeta, suffixRc]
      by_cases h1 : digitsVal n1 < digitsVal n2
      · simp [Nat.cast_lt, h1]
      · by_cases h2 : digitsVal n2 < digitsVal n1
        · simp [Nat.cast_lt, h1, h2]
        · simp [Nat.cast_lt, h1, h2]
  | beta k1 =>
    obtain ⟨hk1, hk1pos⟩ := canonSuffix_beta k1 hs1
    cases s2 with
    | rel =>
      simp only [tailPartsS, minorLadder, List.headI,
        parseMinor_beta n1 k1 hn1 hk1, parseMinor_plain n2 hn2, innerCmpVal,
        suffixBeta, suffixRc]
      by_cases h1 : digitsVal n1 < digitsVal n2
      · simp [Nat.cast_lt, h1]
      · by_cases h2 : digitsVal n2 < digitsVal n1
        · simp [Nat.cast_lt, h1, h2]
        · simp [Nat.cast_lt, h1, h2, hk1pos]
    | beta k2 =>
      obtain ⟨hk2, hk2pos⟩ := canonSuffix_beta k2 hs2
      simp only [tailPartsS, minorLadder, List.headI,
        parseMinor_beta n1 k1 hn1 hk1, parseMinor_beta n2 k2 hn2 hk2,
        innerCmpVal, suffixBeta, suffixRc]
      by_cases h1 : digitsVal n1 < digitsVal n2
      · simp [Nat.cast_lt, h1]
      · by_cases h2 : digitsVal n2 < digitsVal n1
        · simp [Nat.cast_lt, h1, h2]
        · by_cases hb1 : digitsVal k1 < digitsVal k2
          · simp [Nat.cast_lt, h1, h2, hb1, hk1pos, hk1pos.ne']
          · by_cases hb2 : digitsVal k2 < digitsVal k1
            · simp [Nat.cast_lt, h1, h2, hb1, hb2, hk2pos, hk2pos.ne']
            · simp [Nat.cast_lt, h1, h2, hb1, hb2]
    | rc k2 =>
      obtain ⟨hk2, hk2pos⟩ := canonSuffix_rc k2 hs2
      simp only [tailPartsS, minorLadder, List.headI,
        parseMinor_beta n1 k1 hn1 hk1, parseMinor_rc n2 k2 hn2 hk2,
        innerCmpVal, suffixBeta, suffixRc]
      by_cases h1 : digitsVal n1 < digitsVal n2
      · simp [Nat.cast_lt, h1]
      · by_cases h2 : digitsVal n2 < digitsVal n1
        · simp [Nat.cast_lt, h1, h2]
        · simp [Nat.cast_lt, h1, h2, hk1pos]
    | patch p2 =>
      simp only [tailPartsS, minorLadder, List.headI,
        parseMinor_beta n1 k1 hn1 hk1, parseMinor_plain n2 hn2, innerCmpVal,
        suffixBeta, suffixRc]
      by_cases h1 : digitsVal n1 < digitsVal n2
      · simp [Nat.cast_lt, h1]
      · by_cases h2 : digitsVal n2 < digitsVal n1
        · simp [Nat.cast_lt, h1, h2]
        · simp [Nat.cast_lt, h1, h2]
  | rc k1 =>
    obtain ⟨hk1, hk1pos⟩ := canonSuffix_rc k1 hs1
    cases s2 with
    | rel =>
      simp only [tailPartsS, minorLadder, List.headI,
        parseMinor_rc n1 k1 hn1 hk1, parseMinor_plain n2 hn2, innerCmpVal,
        suffixBeta, suffixRc]
      by_cases h1 : digitsVal n1 < digitsVal n2
      · simp [Nat.cast_lt, h1]
      · by_cases h2 : digitsVal n2 < digitsVal n1
        · simp [Nat.cast_lt, h1, h2]
        · simp [Nat.cast_lt, h1, h2, hk1pos]
    | beta k2 =>
      obtain ⟨hk2, hk2pos⟩ := canonSuffix_beta k2 hs2
      simp only [tailPartsS, minorLadder, List.headI,
        parseMinor_rc n1 k1 hn1 hk1, parseMinor_beta n2 k2 hn2 hk2,
        innerCmpVal, suffixBeta, suffixRc]
      by_cases h1 : digitsVal n1 < digitsVal n2
      · simp [Nat.cast_lt, h1]
      · by_cases h2 : digitsVal n2 < digitsVal n1
        · simp [Nat.cast_lt, h1, h2]
        · simp [Nat.cast_lt, h1, h2, hk2pos]
    | rc k2 =>
      obtain ⟨hk2, hk2pos⟩ := canonSuffix_rc k2 hs2
      simp only [tailPartsS, minorLadder, List.headI,
        parseMinor_rc n1 k1 hn1 hk1, parseMinor_rc n2 k2 hn2 hk2,
        innerCmpVal, suffixBeta, suffixRc]
      by_cases h1 : digitsVal n1 < digitsVal n2
      · simp [Nat.cast_lt, h1]
      · by_cases h2 : digitsVal n2 < digitsVal n1
        · simp [Nat.cast_lt, h1, h2]
        · by_cases hr1 : digitsVal k1 < digitsVal k2
          · simp [Nat.cast_lt, h1, h2, hr1, hk1pos, hk1pos.ne']
          · by_cases hr2 : digitsVal k2 < digitsVal k1
            · simp [Nat.cast_lt, h1, h2, hr1, hr2, hk2pos, hk2pos.ne']
            · simp [Nat.cast_lt, h1, h2, hr1, hr2, hk2pos.ne']
    | patch p2 =>
      simp only [tailPartsS, minorLadder, List.headI,
        parseMinor_rc n1 k1 hn1 hk1, parseMinor_plain n2 hn2, innerCmpVal,
        suffixBeta, suffixRc]
      by_cases h1 : digitsVal n1 < digitsVal n2
      · simp [Nat.cast_lt, h1]
      · by_cases h2 : digitsVal n2 < digitsVal n1
        · simp [Nat.cast_lt, h1, h2]
        · simp [Nat.cast_lt, h1, h2]
  | patch p1 =>
    have hp1 : canonNum p1 = true := by simpa [canonSuffix] using hs1
    obtain ⟨hp1ne, hp1dig, _⟩ := canonNum_fields p1 hp1
    cases s2 with
    | rel =>
      simp only [tailPartsS, minorLadder, List.headI, parseMinor_plain n1 hn1,
        parseMinor_plain n2 hn2, innerCmpVal, suffixBeta, suffixRc]
      by_cases h1 : digitsVal n1 < digitsVal n2
      · simp [Nat.cast_lt, h1]
      · by_cases h2 : digitsVal n2 < digitsVal n1
        · simp [Nat.cast_lt, h1, h2]
        · simp [Nat.cast_lt, h1, h2]
    | beta k2 =>
      obtain ⟨hk2, hk2pos⟩ := canonSuffix_beta k2 hs2
      simp only [tailPartsS, minorLadder, List.headI, parseMinor_plain n1 hn1,
        parseMinor_beta n2 k2 hn2 hk2, innerCmpVal, suffixBeta, suffixRc]
      by_cases h1 : digitsVal n1 < digitsVal n2
      · simp [Nat.cast_lt, h1]
      · by_cases h2 : digitsVal n2 < digitsVal n1
        · simp [Nat.cast_lt, h1, h2]
        · simp [Nat.cast_lt, h1, h2]
    | rc k2 =>
      obtain ⟨hk2, hk2pos⟩ := canonSuffix_rc k2 hs2
      simp only [tailPartsS, minorLadder, List.headI, parseMinor_plain n1 hn1,
        parseMinor_rc n2 k2 hn2 hk2, innerCmpVal, suffixBeta, suffixRc]
      by_cases h1 : digitsVal n1 < digitsVal n2
      · simp [Nat.cast_lt, h1]
      · by_cases h2 : digitsVal n2 < digitsVal n1
        · simp [Nat.cast_lt, h1, h2]
        · simp [Nat.cast_lt, h1, h2]
    | patch p2 =>
      have hp2 : canonNum p2 = true := by simpa [canonSuffix] using hs2
      obtain ⟨hp2ne, hp2dig, _⟩ := canonNum_fields p2 hp2
      simp only [tailPartsS, minorLadder, List.headI, parseMinor_plain n1 hn1,
        parseMinor_plain n2 hn2, innerCmpVal, suffixBeta, suffixRc]
      by_cases h1 : digitsVal n1 < digitsVal n2
      · simp [Nat.cast_lt, h1]
      · by_cases h2 : digitsVal n2 < digitsVal n1
        · simp [Nat.cast_lt, h1, h2]
        · have hap : atoi p1 = some ((digitsVal p1 : Nat) : Int) :=
            atoi_digits p1 hp1dig hp1ne
          have hbp : atoi p2 = some ((digitsVal p2 : Nat) : Int) :=
            atoi_digits p2 hp2dig hp2ne
          have hg1 : ([n1, p1].getI 1) = p1 := rfl
          have hg2 : ([n2, p2].getI 1) = p2 := rfl
          by_cases hp : digitsVal p2 < digitsVal p1
          · simp [Nat.cast_lt, h1, h2, hg1, hg2, hap, hbp, hp]
          · simp [Nat.cast_lt, h1, h2, hg1, hg2, hap, hbp, hp]

/-- Digit strings contain no dot. -/
lemma dot_not_mem_digits (s : List Char) (h : s.all Char.isDigit = true) :
    '.' ∉ s := by
  intro hm
  exact absurd (List.all_eq_true.mp h _ hm) (by decide)

/-- The goMAJ piece contains no dot. -/
lemma dot_not_mem_go (m : List Char) (hm : m.all Char.isDigit = true) :
    '.' ∉ goChars ++ m := by
  intro hmem
  rcases List.mem_append.mp hmem with h | h
  · exact absurd h (by decide)
  · exact dot_not_mem_digits m hm h

/-- A beta minor piece contains no dot. -/
lemma dot_not_mem_beta (n k : List Char) (hn : n.all Char.isDigit = true)
    (hk : k.all Char.isDigit = true) : '.' ∉ n ++ betaChars ++ k := by
  intro hmem
  rcases List.mem_append.mp hmem with h | h
  · rcases List.mem_append.mp h with h2 | h2
    · exact dot_not_mem_digits n hn h2
    · exact absurd h2 (by decide)
  · exact dot_not_mem_digits k hk h

/-- An rc minor piece contains no dot. -/
lemma dot_not_mem_rc (n k : List Char) (hn : n.all Char.isDigit = true)
    (hk : k.all Char.isDigit = true) : '.' ∉ n ++ rcChars ++ k := by
  intro hmem
  rcases List.mem_append.mp hmem with h | h
  · rcases List.mem_append.mp h with h2 | h2
    · exact dot_not_mem_digits n hn h2
    · exact absurd h2 (by decide)
  · exact dot_not_mem_digits k hk h

/-- The canonical components of a goMAJ.MIN tag. -/
lemma canonTag_fields_ver (m n : List Char) (s : GoTagSuffix)
    (h : canonTag (.ver m n s) = true) :
    canonNum m = true ∧ canonNum n = true ∧ canonSuffix s = true := by
  simpa [canonTag, Bool.and_eq_true, and_assoc] using h

/-- The major component of a canonical tag is canonical. -/
lemma canonTag_maj (t : GoTag) (h : canonTag t = true) :
    canonNum (majOf t) = true := by
  cases t with
  | majOnly m => simpa [canonTag, majOf] using h
  | ver m n s => exact (canonTag_fields_ver m n s h).1

/-- Splitting a rendered canonical tag on dots gives its pieces. -/
lemma split_render (t : GoTag) (h : canonTag t = true) :
    splitOnDot (renderTag t) = splitParts t := by
  cases t with
  | majOnly m =>
    have hm : canonNum m = true := by simpa [canonTag] using h
    obtain ⟨_, hmd, _⟩ := canonNum_fields m hm
    exact splitOnDot_no_dot _ (dot_not_mem_go m hmd)
  | ver m n s =>
    obtain ⟨hm, hn, hs⟩ := canonTag_fields_ver m n s h
    obtain ⟨_, hmd, _⟩ := canonNum_fields m hm
    obtain ⟨_, hnd, _⟩ := canonNum_fields n hn
    cases s with
    | rel =>
      have harr : renderTag (.ver m n .rel) = (goChars ++ m) ++ '.' :: n := by
        simp [renderTag]
      rw [harr, splitOnDot_append _ _ (dot_not_mem_go m hmd),
        splitOnDot_no_dot n (dot_not_mem_digits n hnd)]
      rfl
    | beta k =>
      obtain ⟨hk, _⟩ := canonSuffix_beta k hs
      obtain ⟨_, hkd, _⟩ := canonNum_fields k hk
      have harr : renderTag (.ver m n (.beta k)) =
          (goChars ++ m) ++ '.' :: (n ++ betaChars ++ k) := by
        simp [renderTag]
      rw [harr, splitOnDot_append _ _ (dot_not_mem_go m hmd),
        splitOnDot_no_dot _ (dot_not_mem_beta n k hnd hkd)]
      rfl
    | rc k =>
      obtain ⟨hk, _⟩ := canonSuffix_rc k hs
      obtain ⟨_, hkd, _⟩ := canonNum_fields k hk
      have harr : renderTag (.ver m n (.rc k)) =
          (goChars ++ m) ++ '.' :: (n ++ rcChars ++ k) := by
        simp [renderTag]
      rw [harr, splitOnDot_append _ _ (dot_not_mem_go m hmd),
        splitOnDot_no_dot _ (dot_not_mem_rc n k hnd hkd)]
      rfl
    | patch p =>
      have hp : canonNum p = true := by simpa [canonSuffix] using hs
      obtain ⟨_, hpd, _⟩ := canonNum_fields p hp
      have harr : renderTag (.ver m n (.patch p)) =
          (goChars ++ m) ++ '.' :: (n ++ '.' :: p) := by
        simp [renderTag]
      rw [harr, splitOnDot_append _ _ (dot_not_mem_go m hmd),
        splitOnDot_append _ _ (dot_not_mem_digits n hnd),
        splitOnDot_no_dot p (dot_not_mem_digits p hpd)]
      rfl

/-- GoVersionCompare on two distinct rendered canonical tags computes the
ladder value. -/
lemma compare_render (t1 t2 : GoTag) (h1 : canonTag t1 = true)
    (h2 : canonTag t2 = true) (hne : renderTag t1 ≠ renderTag t2) :
    goVersionCompareL (renderTag t1) (renderTag t2) = some (tagCmpVal t1 t2) := by
  unfold goVersionCompareL
  rw [if_neg hne, split_render t1 h1, split_render t2 h2, splitParts_eq t1,
    splitParts_eq t2,
    compareMain_go (majOf t1) (majOf t2) _ _ (canonTag_maj t1 h1) (canonTag_maj t2 h2)]
  unfold tagCmpVal
  by_cases hM1 : digitsVal (majOf t1) < digitsVal (majOf t2)
  · rw [if_pos hM1, if_pos hM1]
  · rw [if_neg hM1, if_neg hM1]
    by_cases hM2 : digitsVal (majOf t2) < digitsVal (majOf t1)
    · rw [if_pos hM2, if_pos hM2]
    · rw [if_neg hM2, if_neg hM2]
      cases t1 with
      | majOnly m1 =>
        rw [if_pos rfl]
      | ver m1 n1 s1 =>
        obtain ⟨hm1, hn1, hs1⟩ := canonTag_fields_ver m1 n1 s1 h1
        have hne1 : tailPartsS n1 s1 ≠ [] := by cases s1 <;> simp [tailPartsS]
        cases t2 with
        | majOnly m2 =>
          rw [if_neg hne1, if_pos rfl]
        | ver m2 n2 s2 =>
          obtain ⟨hm2, hn2, hs2⟩ := canonTag_fields_ver m2 n2 s2 h2
          have hne2 : tailPartsS n2 s2 ≠ [] := by cases s2 <;> simp [tailPartsS]
          rw [if_neg hne1, if_neg hne2,
            minorLadder_eval n1 n2 s1 s2 hn1 hn2 hs1 hs2]

/-- The inner ladder value is never zero. -/
lemma innerCmpVal_ne_zero (n1 n2 : List Char) (s1 s2 : GoTagSuffix) :
    innerCmpVal n1 s1 n2 s2 = 1 ∨ innerCmpVal n1 s1 n2 s2 = -1 := by
  cases s1 <;> cases s2 <;>
    (simp only [innerCmpVal, suffixBeta, suffixRc]; split_ifs <;> simp)

/-- The ladder value is never zero. -/
lemma tagCmpVal_ne_zero (t1 t2 : GoTag) :
    tagCmpVal t1 t2 = 1 ∨ tagCmpVal t1 t2 = -1 := by
  cases t1 with
  | majOnly m1 =>
    unfold tagCmpVal
    split_ifs <;> simp
  | ver m1 n1 s1 =>
    cases t2 with
    | majOnly m2 =>
      unfold tagCmpVal
      split_ifs <;> simp
    | ver m2 n2 s2 =>
      unfold tagCmpVal
      split_ifs with h1 h2
      · simp
      · simp
      · exact innerCmpVal_ne_zero n1 n2 s1 s2

/-- The inner ladder is antisymmetric on canonical distinct goMAJ.MIN
bodies. -/
lemma innerCmpVal_antisym (n1 n2 : List Char) (s1 s2 : GoTagSuffix)
    (hn1 : canonNum n1 = true) (hn2 : canonNum n2 = true)
    (hs1 : canonSuffix s1 = true) (hs2 : canonSuffix s2 = true)
    (hne : ¬ (n1 = n2 ∧ s1 = s2)) :
    innerCmpVal n2 s2 n1 s1 = -innerCmpVal n1 s1 n2 s2 := by
  by_cases hN1 : digitsVal n1 < digitsVal n2
  · unfold innerCmpVal
    rw [if_neg (by omega), if_pos (by omega), if_pos hN1]
    norm_num
  · by_cases hN2 : digitsVal n2 < digitsVal n1
    · unfold innerCmpVal
      rw [if_pos hN2, if_neg hN1, if_pos hN2]
    · have hneq : digitsVal n1 = digitsVal n2 := by omega
      have hn12 : n1 = n2 := canonNum_val_inj n1 n2 hn1 hn2 hneq
      subst hn12
      have hsne : s1 ≠ s2 := fun h => hne ⟨rfl, h⟩
      unfold innerCmpVal
      rw [if_neg hN1, if_neg hN2, if_neg hN2, if_neg hN1]
      cases s1 with
      | rel =>
        cases s2 with
        | rel => exact absurd rfl hsne
        | beta k2 =>
          obtain ⟨hk2, hk2pos⟩ := canonSuffix_beta k2 hs2
          simp [suffixBeta, suffixRc, hk2pos, hk2pos.ne']
        | rc k2 =>
          obtain ⟨hk2, hk2pos⟩ := canonSuffix_rc k2 hs2
          simp [suffixBeta, suffixRc, hk2pos, hk2pos.ne']
        | patch p2 => norm_num
      | beta k1 =>
        obtain ⟨hk1, hk1pos⟩ := canonSuffix_beta k1 hs1
        cases s2 with
        | rel => simp [suffixBeta, suffixRc, hk1pos, hk1pos.ne']
        | beta k2 =>
          obtain ⟨hk2, hk2pos⟩ := canonSuffix_beta k2 hs2
          have hkk : digitsVal k1 ≠ digitsVal k2 := by
            intro hv
            exact hsne (by rw [canonNum_val_inj k1 k2 hk1 hk2 hv])
          by_cases hb : digitsVal k1 < digitsVal k2
          · simp [suffixBeta, suffixRc, hb, hk1pos.ne', Nat.lt_asymm hb]
          · have hb2 : digitsVal k2 < digitsVal k1 := by omega
            simp [suffixBeta, suffixRc, hb, hb2, hk2pos.ne']
        | rc k2 =>
          obtain ⟨hk2, hk2pos⟩ := canonSuffix_rc k2 hs2
          simp [suffixBeta, suffixRc, hk1pos, hk1pos.ne', hk2pos, hk2pos.ne']
        | patch p2 => norm_num
      | rc k1 =>
        obtain ⟨hk1, hk1pos⟩ := canonSuffix_rc k1 hs1
        cases s2 with
        | rel => simp [suffixBeta, suffixRc, hk1pos, hk1pos.ne']
        | beta k2 =>
          obtain ⟨hk2, hk2pos⟩ := canonSuffix_beta k2 hs2
          simp [suffixBeta, suffixRc, hk1pos, hk1pos.ne', hk2pos, hk2pos.ne']
        | rc k2 =>
          obtain ⟨hk2, hk2pos⟩ := canonSuffix_rc k2 hs2
          have hkk : digitsVal k1 ≠ digitsVal k2 := by
            intro hv
            exact hsne (by rw [canonNum_val_inj k1 k2 hk1 hk2 hv])
          by_cases hb : digitsVal k1 < digitsVal k2
          · simp [suffixBeta, suffixRc, hb, hk1pos.ne', hk2pos.ne', Nat.lt_asymm hb]
          · have hb2 : digitsVal k2 < digitsVal k1 := by omega
            simp [suffixBeta, suffixRc, hb, hb2, hk1pos.ne', hk2pos.ne']
        | patch p2 => norm_num
      | patch p1 =>
        have hp1 : canonNum p1 = true := by simpa [canonSuffix] using hs1
        cases s2 with
        | rel => norm_num
        | beta k2 => norm_num
        | rc k2 => norm_num
        | patch p2 =>
          have hp2 : canonNum p2 = true := by simpa [canonSuffix] using hs2
          have hpp : digitsVal p1 ≠ digitsVal p2 := by
            intro hv
            exact hsne (by rw [canonNum_val_inj p1 p2 hp1 hp2 hv])
          by_cases hp : digitsVal p2 < digitsVal p1
          · simp [hp, Nat.lt_asymm hp]
          · have hq : digitsVal p1 < digitsVal p2 := by omega
            simp [hp, hq, Nat.lt_asymm hq]

/-- The ladder value is antisymmetric on distinct canonical tags. -/
lemma tagCmpVal_antisym (t1 t2 : GoTag) (h1 : canonTag t1 = true)
    (h2 : canonTag t2 = true) (hne : t1 ≠ t2) :
    tagCmpVal t2 t1 = -tagCmpVal t1 t2 := by
  by_cases hM1 : digitsVal (majOf t1) < digitsVal (majOf t2)
  · unfold tagCmpVal
    rw [if_neg (by omega), if_pos (by omega), if_pos hM1]
    norm_num
  · by_cases hM2 : digitsVal (majOf t2) < digitsVal (majOf t1)
    · unfold tagCmpVal
      rw [if_pos hM2, if_neg hM1, if_pos hM2]
    · unfold tagCmpVal
      rw [if_neg hM2, if_neg hM1, if_neg hM1, if_neg hM2]
      have hMeq : digitsVal (majOf t1) = digitsVal (majOf t2) := by omega
      cases t1 with
      | majOnly m1 =>
        cases t2 with
        | majOnly m2 =>
          exfalso
          have hm1 : canonNum m1 = true := canonTag_maj (.majOnly m1) h1
          have hm2 : canonNum m2 = true := canonTag_maj (.majOnly m2) h2
          exact hne (by rw [canonNum_val_inj m1 m2 hm1 hm2 hMeq])
        | ver m2 n2 s2 => norm_num
      | ver m1 n1 s1 =>
        cases t2 with
        | majOnly m2 => norm_num
        | ver m2 n2 s2 =>
          obtain ⟨hm1, hn1, hs1⟩ := canonTag_fields_ver m1 n1 s1 h1
          obtain ⟨hm2, hn2, hs2⟩ := canonTag_fields_ver m2 n2 s2 h2
          have hm12 : m1 = m2 := canonNum_val_inj m1 m2 hm1 hm2 hMeq
          subst hm12
          have hns : ¬ (n1 = n2 ∧ s1 = s2) := by
            intro ⟨ha, hb⟩
            subst ha
            subst hb
            exact hne rfl
          exact innerCmpVal_antisym n1 n2 s1 s2 hn1 hn2 hs1 hs2 hns

/-- C6: on every pair of tags of the table grammar, the comparator terminates
without panicking and satisfies compare(a,b) = -compare(b,a); and whenever
compare(a,b) = 0, compare(a,c) = compare(b,c) for every tag c (a zero result
only arises from identical strings). -/
theorem goVersionCompare_total_order (t1 t2 : GoTag) (h1 : canonTag t1 = true)
    (h2 : canonTag t2 = true) :
    (∃ r : Int, goVersionCompareL (renderTag t1) (renderTag t2) = some r ∧
      goVersionCompareL (renderTag t2) (renderTag t1) = some (-r)) ∧
    (goVersionCompareL (renderTag t1) (renderTag t2) = some 0 →
      ∀ t3 : GoTag, canonTag t3 = true →
        goVersionCompareL (renderTag t1) (renderTag t3) =
          goVersionCompareL (renderTag t2) (renderTag t3)) := by
  by_cases hre : renderTag t1 = renderTag t2
  · constructor
    · refine ⟨0, ?_, ?_⟩
      · rw [hre]
        simp [goVersionCompareL]
      · rw [hre]
        simp [goVersionCompareL]
    · intro _ t3 _
      rw [hre]
  · have htne : t1 ≠ t2 := fun h => hre (by rw [h])
    constructor
    · refine ⟨tagCmpVal t1 t2, compare_render t1 t2 h1 h2 hre, ?_⟩
      rw [compare_render t2 t1 h2 h1 (fun h => hre h.symm),
        tagCmpVal_antisym t1 t2 h1 h2 htne]
    · intro h0
      rw [compare_render t1 t2 h1 h2 hre] at h0
      rcases tagCmpVal_ne_zero t1 t2 with hv | hv <;> rw [hv] at h0 <;> cases h0

/-- Witness for C6 at the canonical tags go1.7rc1 and go1.7beta1. -/
theorem goVersionCompare_total_order_witness :
    goVersionCompareL (renderTag (GoTag.ver ['1'] ['7'] (.rc ['1'])))
      (renderTag (GoTag.ver ['1'] ['7'] (.beta ['1']))) = some 1 ∧
    goVersionCompareL (renderTag (GoTag.ver ['1'] ['7'] (.beta ['1'])))
      (renderTag (GoTag.ver ['1'] ['7'] (.rc ['1']))) = some (-1) := by
  obtain ⟨⟨r, hr1, hr2⟩, h0⟩ :=
    goVersionCompare_total_order (GoTag.ver ['1'] ['7'] (.rc ['1']))
      (GoTag.ver ['1'] ['7'] (.beta ['1'])) (by decide) (by decide)
  have hv : goVersionCompareL (renderTag (GoTag.ver ['1'] ['7'] (.rc ['1'])))
      (renderTag (GoTag.ver ['1'] ['7'] (.beta ['1']))) = some 1 := by decide
  rw [hv] at hr1
  cases hr1
  exact ⟨hv, hr2⟩

/- ---------------------------------------------------------------------------
   C4: compiler-version discovery order (goversion.go findGoCompilerVersion,
   file.go GetCompilerVersion / ensureCompilerVersion / tryExtractCompilerVersion
   and the buildinfo step of Open).
--------------------------------------------------------------------------- -/

/-- The character class [\d+\.] of the goVersionMatcher regular expression. -/
def isC1 (c : Char) : Bool := c.isDigit || c = '+' || c = '.'

/-- The character class [\d*] of the goVersionMatcher regular expression. -/
def isC2 (c : Char) : Bool := c.isDigit || c = '*'

/-- The tail of a goVersionMatcher match after the [\d+\.]* part: the optional
(beta|rc) group, preferring beta, then rc, then empty (the alternatives are
mutually exclusive literal prefixes), followed by one required [\d*]
character. -/
def tryTail (rest : List Char) : Option (List Char) :=
  if betaChars.isPrefixOf rest then
    match (rest.drop 4).head? with
    | some c =>
      if isC2 c then some (betaChars ++ [c])
      else match rest.head? with
           | some c0 => if isC2 c0 then some [c0] else none
           | none => none
    | none =>
      match rest.head? with
      | some c0 => if isC2 c0 then some [c0] else none
      | none => none
  else if rcChars.isPrefixOf rest then
    match (rest.drop 2).head? with
    | some c =>
      if isC2 c then some (rcChars ++ [c])
      else match rest.head? with
           | some c0 => if isC2 c0 then some [c0] else none
           | none => none
    | none =>
      match rest.head? with
      | some c0 => if isC2 c0 then some [c0] else none
      | none => none
  else
    match rest.head? with
    | some c0 => if isC2 c0 then some [c0] else none
    | none => none

/-- Backtracking over the greedy [\d+\.]* part of goVersionMatcher: try the
run length k first, then shorter prefixes of the class-1 run. -/
def tryK (rest : List Char) : Nat → Option (List Char)
  | 0 => (tryTail rest).map (fun t => goChars ++ t)
  | k + 1 =>
    match tryTail (rest.drop (k + 1)) with
    | some t => some (goChars ++ rest.take (k + 1) ++ t)
    | none => tryK rest k

/-- A goVersionMatcher match anchored at the start of s: the literal "go",
then the backtracking greedy run, then the suffix. -/
def matchAt (s : List Char) : Option (List Char) :=
  if goChars.isPrefixOf s then
    tryK (s.drop 2) ((s.drop 2).takeWhile isC1).length
  else none

/-- goVersionMatcher.Find: the leftmost match of
go[\d+\.]*(beta|rc)?[\d*] in the data (Go regexp semantics are
leftmost-first). -/
def goVersionFind : List Char → Option (List Char)
  | [] => none
  | c :: cs =>
    match matchAt (c :: cs) with
    | some m => some m
    | none => goVersionFind cs

/-- goversion.go matchGoVersionString: the found version string, empty when
there is no match. -/
def matchGoVersionString (data : List Char) : List Char :=
  (goVersionFind data).getD []

instance {ε α : Type} [DecidableEq ε] [DecidableEq α] :
    DecidableEq (Except ε α) := fun a b =>
  match a, b with
  | .error e1, .error e2 =>
    match decEq e1 e2 with
    | .isTrue h => .isTrue (h ▸ rfl)
    | .isFalse h => .isFalse (fun hc => h (by cases hc; rfl))
  | .error _, .ok _ => .isFalse (fun hc => Except.noConfusion hc)
  | .ok _, .error _ => .isFalse (fun hc => Except.noConfusion hc)
  | .ok a1, .ok a2 =>
    match decEq a1 a2 with
    | .isTrue h => .isTrue (h ▸ rfl)
    | .isFalse h => .isFalse (fun hc => h (by cases hc; rfl))

/-- The environment of findGoCompilerVersion: the result of
tryFromSchedInit(f) (which disassembles x86 machine code through the external
x86asm package, so its outcome on the file is a field here), and the fh
getRData and getCodeSection section reads. -/
structure C4Env where
  schedInit : Option GoVersion
  rdata : Except String (List Char)
  codeSection : Except String (List Char)
  deriving DecidableEq

/-- The section-selection prelude of the string-scan strategy: rodata, and
when that section does not exist, the code section; any other error aborts. -/
def scanData (env : C4Env) : Except String (List Char) :=
  match env.rdata with
  | .error e => if e = errSectionDoesNotExist then env.codeSection else .error e
  | .ok d => .ok d

/-- The version-string scan loop of findGoCompilerVersion: match the version
regular expression, fail with ErrNoGoVersionFound when nothing matches,
resolve the match against the known-versions table, skip resolver misses and
versions below go1.4beta1 by advancing past the first occurrence of the match
plus two bytes, and return the first survivor.  The source loop exits with
(nil, nil) when bytes.Index misses; each iteration drops at least two bytes,
so data length is enough fuel. -/
def scanLoop (goversions : List (String × GoVersion)) :
    Nat → List Char → GoResult (Option GoVersion)
  | 0, _ => .ok none
  | fuel + 1, data =>
    let version := matchGoVersionString data
    if version.isEmpty then .err errNoGoVersionFound
    else
      match resolveGoVersion goversions (String.mk version) with
      | none =>
        match indexOfSub data version with
        | none => .ok none
        | some off => scanLoop goversions fuel (data.drop (off + 2))
      | some ver =>
        match GoVersionCompare ver.name "go1.4beta1" with
        | none => .panicked "GoVersionCompare"
        | some c =>
          if c < 0 then
            match indexOfSub data version with
            | none => .ok none
            | some off => scanLoop goversions fuel (data.drop (off + 2))
          else .ok (some ver)

/-- goversion.go findGoCompilerVersion: the schedinit strategy is consulted
first and short-circuits; only when it yields nothing does the string scan of
rodata (or the code section) run. -/
def findGoCompilerVersion (goversions : List (String × GoVersion))
    (env : C4Env) : GoResult (Option GoVersion) :=
  match env.schedInit with
  | some v => .ok (some v)
  | none =>
    match scanData env with
    | .error e => .err e
    | .ok data => scanLoop goversions (data.length + 1) data

/-- file.go GetCompilerVersion through ensureCompilerVersion and
tryExtractCompilerVersion: when FileInfo.goversion is already set (as the
buildinfo step of Open does when the blob names a compiler), discovery never
runs; otherwise findGoCompilerVersion decides the result. -/
def getCompilerVersion (goversions : List (String × GoVersion))
    (goversion : Option GoVersion) (env : C4Env) : GoResult (Option GoVersion) :=
  match goversion with
  | some v => .ok (some v)
  | none => findGoCompilerVersion goversions env

/-- Concrete versions for exercising the discovery order. -/
def c4v15 : GoVersion := ⟨"go1.5", "sha15", "ts15"⟩

def c4v116 : GoVersion := ⟨"go1.16beta1", "sha116", "ts116"⟩

def c4table : List (String × GoVersion) :=
  [("go1.5", c4v15), ("go1.16beta1", c4v116)]

/-- An environment whose schedinit disassembly yields go1.5 while rodata
holds the version string go1.16beta1. -/
def c4env : C4Env :=
  { schedInit := some c4v15,
    rdata := .ok "go1.16beta1".toList,
    codeSection := .error errSectionDoesNotExist }

/-- Counterexample to C4's claimed order: on an environment whose rodata scan
finds the valid version go1.16beta1 (≥ go1.4beta1, as the second conjunct
shows by disabling schedinit), the discovery result is nevertheless the
schedinit version go1.5: the schedinit strategy is consulted before the
string scan, not after. -/
theorem findGoCompilerVersion_schedinit_wins :
    findGoCompilerVersion c4table c4env = .ok (some c4v15) ∧
    findGoCompilerVersion c4table { c4env with schedInit := none } =
      .ok (some c4v116) ∧
    c4v15 ≠ c4v116 := by
  refine ⟨rfl, ?_, by decide⟩
  decide

/-- C4 (amended): the discovery strategies run in the order buildinfo (at
Open, via the stored FileInfo.goversion), then schedinit disassembly, then
the string scan of rodata falling back to the code section; each earlier
strategy short-circuits every later one, and in particular a schedinit hit
hides whatever the string scan would find.  When both earlier strategies
yield nothing, a failing section lookup is returned as that error, and a scan
of data matching no version string returns ErrNoGoVersionFound. -/
theorem getCompilerVersion_strategy_order
    (goversions : List (String × GoVersion)) (goversion : Option GoVersion)
    (env : C4Env) :
    (∀ v, goversion = some v →
      getCompilerVersion goversions goversion env = .ok (some v)) ∧
    (goversion = none → ∀ v, env.schedInit = some v →
      getCompilerVersion goversions goversion env = .ok (some v)) ∧
    (goversion = none → env.schedInit = none → ∀ e,
      scanData env = .error e →
      getCompilerVersion goversions goversion env = .err e) ∧
    (goversion = none → env.schedInit = none → ∀ data,
      scanData env = .ok data → matchGoVersionString data = [] →
      getCompilerVersion goversions goversion env = .err errNoGoVersionFound) := by
  refine ⟨?_, ?_, ?_, ?_⟩
  · intro v hv
    simp [getCompilerVersion, hv]
  · intro hg v hs
    simp [getCompilerVersion, findGoCompilerVersion, hg, hs]
  · intro hg hs e he
    simp [getCompilerVersion, findGoCompilerVersion, hg, hs, he]
  · intro hg hs data hd hm
    simp [getCompilerVersion, findGoCompilerVersion, hg, hs, hd, scanLoop, hm]

/-- Witness for the amended C4 order at concrete inputs: a stored buildinfo
version wins over everything, a schedinit hit wins over the scan, a missing
section surfaces as its error, and version-free data yields
ErrNoGoVersionFound. -/
theorem getCompilerVersion_strategy_order_witness :
    getCompilerVersion c4table (some c4v116) c4env = .ok (some c4v116) ∧
    getCompilerVersion c4table none c4env = .ok (some c4v15) ∧
    getCompilerVersion c4table none
      { schedInit := none, rdata := .error errNotEnoughBytesRead,
        codeSection := .ok [] } = .err errNotEnoughBytesRead ∧
    getCompilerVersion c4table none
      { schedInit := none, rdata := .ok ['x'],
        codeSection := .error errSectionDoesNotExist } =
      .err errNoGoVersionFound := by
  refine ⟨?_, ?_, ?_, ?_⟩
  · exact (getCompilerVersion_strategy_order c4table (some c4v116) c4env).1
      c4v116 rfl
  · exact (getCompilerVersion_strategy_order c4table none c4env).2.1 rfl
      c4v15 rfl
  · exact (getCompilerVersion_strategy_order c4table none _).2.2.1 rfl rfl
      errNotEnoughBytesRead (by decide)
  · exact (getCompilerVersion_strategy_order c4table none _).2.2.2 rfl rfl
      ['x'] (by decide) (by decide)

end Gore
